import Mathlib

/-!
# Serial protocol of arduino_python_serial: embedding and verification

Shallow embedding of `src/arduino/protocol.h` (checksum, message registry,
encoder `sendToBuffer`, byte-at-a-time `Parser::parseByte`) and of the encoder
wrapper `getBytes` of `src/python/protocol.cpp`.

Conventions of the embedding:
* a `uint8_t` is a `Nat`; every place where the C code truncates to 8 bits
  carries an explicit `% 256`;
* a C array is a `List Nat`; a store outside the declared bounds of an array is
  undefined behaviour in C and is modelled by the result `none`;
* the payload records are copied with `memcpy`, so their object representation
  matters: fields are laid out in declaration order, packed, each 32-bit field
  as 4 little-endian bytes (two's complement for `int32_t`).
-/

namespace protocol

/-! ## Checksum (`update_crc`) -/

/-- Body of the `for` loop of `update_crc`: one shift of the 8-bit register,
with the conditional XOR of `0x07`. -/
def crcShift (data : Nat) : Nat :=
  if data &&& 0x80 ≠ 0 then ((data <<< 1) % 256) ^^^ 0x07 else (data <<< 1) % 256

/-- The `for (i = 0; i < 8; i++)` loop of `update_crc`, by remaining iterations. -/
def crcLoop : Nat → Nat → Nat
  | 0, data => data
  | n + 1, data => crcLoop n (crcShift data)

/-- Embedding of `update_crc(uint8_t current, uint8_t byte)`. -/
def update_crc (current byte : Nat) : Nat :=
  crcLoop 8 ((current ^^^ byte) % 256)

/-! ## Registry -/

/-- Embedding of the variadic `maxSizeOf<T1, T2, Ts...>()`: the type list is
given by the sizes of its members, first member apart. -/
def maxSizeOf : Nat → List Nat → Nat
  | s, [] => s
  | s1, s2 :: ss => if s1 > maxSizeOf s2 ss then s1 else maxSizeOf s2 ss

/-- The constant `START_BYTE`. -/
def START_BYTE : Nat := 0xA5

/-- The record `Heartbeat`; `count` is a `uint32_t`. -/
structure Heartbeat where
  count : Nat
deriving DecidableEq, Repr

/-- The record `Request`; both fields are `int32_t`. -/
structure Request where
  a : Int
  b : Int
deriving DecidableEq, Repr

/-- The record `Response`; all fields are `int32_t`. -/
structure Response where
  a : Int
  b : Int
  c : Int
deriving DecidableEq, Repr

/-- The enumeration `MessageID : uint8_t`. -/
inductive MessageID where
  | HEARTBEAT
  | REQUEST
  | RESPONSE
deriving DecidableEq, Repr

/-- The `static_cast<uint8_t>` of a `MessageID`: enumerators count from 0. -/
def MessageID.toByte : MessageID → Nat
  | .HEARTBEAT => 0
  | .REQUEST => 1
  | .RESPONSE => 2

/-- Range of a `uint32_t`. -/
def isUInt32 (n : Nat) : Prop := n < 4294967296

/-- Range of an `int32_t`. -/
def isInt32 (i : Int) : Prop := -2147483648 ≤ i ∧ i < 2147483648

instance (n : Nat) : Decidable (isUInt32 n) := by unfold isUInt32; infer_instance

instance (i : Int) : Decidable (isInt32 i) := by unfold isInt32; infer_instance

/-- The four bytes of a 32-bit word in memory order (little-endian). -/
def le32 (n : Nat) : List Nat :=
  [n % 256, n / 256 % 256, n / 65536 % 256, n / 16777216 % 256]

/-- The 32-bit pattern of an `int32_t` (two's complement). -/
def int32Bits (i : Int) : Nat := (i % 4294967296).toNat

/-- The 32-bit word stored at offset `off` of a byte array (little-endian). -/
def readLe32 (buffer : List Nat) (off : Nat) : Nat :=
  buffer.getD off 0 + 256 * buffer.getD (off + 1) 0 + 65536 * buffer.getD (off + 2) 0
    + 16777216 * buffer.getD (off + 3) 0

/-- The `int32_t` with a given 32-bit pattern. -/
def toInt32 (n : Nat) : Int :=
  if n < 2147483648 then (n : Int) else (n : Int) - 4294967296

/-- What the templates `sendToBuffer<T>` and `getBytes<T>` use of a type `T`:
`getID<T>()`, `sizeof(T)` and the object representation read by `memcpy`. -/
class SerialMessage (T : Type) where
  /-- The specialisation `getID<T>()`. -/
  getID : MessageID
  /-- The value `sizeof(T)` of the packed record. -/
  size : Nat
  /-- The bytes of a value of `T` in memory order. -/
  objectBytes : T → List Nat
  /-- The values representable in the fields of `T`. -/
  inRange : T → Prop

instance : SerialMessage Heartbeat where
  getID := .HEARTBEAT
  size := 4
  objectBytes m := le32 m.count
  inRange m := isUInt32 m.count

instance : SerialMessage Request where
  getID := .REQUEST
  size := 8
  objectBytes m := le32 (int32Bits m.a) ++ le32 (int32Bits m.b)
  inRange m := isInt32 m.a ∧ isInt32 m.b

instance : SerialMessage Response where
  getID := .RESPONSE
  size := 12
  objectBytes m := le32 (int32Bits m.a) ++ le32 (int32Bits m.b) ++ le32 (int32Bits m.c)
  inRange m := isInt32 m.a ∧ isInt32 m.b ∧ isInt32 m.c

/-- The constant `Info::maxPayloadSize`, a `uint8_t` initialised from
`maxSizeOf<Heartbeat, Request, Response>()`. -/
def maxPayloadSize : Nat :=
  maxSizeOf (SerialMessage.size Heartbeat)
    [SerialMessage.size Request, SerialMessage.size Response] % 256

/-! ## Message envelope -/

/-- The struct `Message`. The union `payload` is represented by its byte view
`payload.buffer`; the typed views are the accessors below. -/
structure Message where
  start_byte : Nat := 0xA5
  id : Nat
  len : Nat
  buffer : List Nat
  crc : Nat
deriving DecidableEq, Repr

/-- Embedding of `Message::getID`. -/
def Message.getID (m : Message) : Nat := m.id

/-- Embedding of `Message::getHeartbeat`: the view `payload.message.heartbeat`
of the payload bytes. -/
def Message.getHeartbeat (m : Message) : Heartbeat :=
  { count := readLe32 m.buffer 0 }

/-- Embedding of `Message::getRequest`: the view `payload.message.request`. -/
def Message.getRequest (m : Message) : Request :=
  { a := toInt32 (readLe32 m.buffer 0), b := toInt32 (readLe32 m.buffer 4) }

/-- Embedding of `Message::getResponse`: the view `payload.message.response`. -/
def Message.getResponse (m : Message) : Response :=
  { a := toInt32 (readLe32 m.buffer 0), b := toInt32 (readLe32 m.buffer 4),
    c := toInt32 (readLe32 m.buffer 8) }

/-- The value `sizeof(protocol::Message)`: three header bytes, the payload union
and the checksum byte, all of alignment 1. -/
def sizeofMessage : Nat := 3 + maxPayloadSize + 1

/-! ## Encoder -/

/-- A store `buffer[i] = v` into a C array; `none` when `i` is out of bounds. -/
def store (buffer : List Nat) (i v : Nat) : Option (List Nat) :=
  if i < buffer.length then some (buffer.set i v) else none

/-- The call `memcpy(buffer + off, src, n)` with `src` given by its `n` bytes. -/
def memcpy : List Nat → Nat → List Nat → Option (List Nat)
  | buffer, _, [] => some buffer
  | buffer, off, b :: bs =>
    match store buffer off b with
    | some buffer1 => memcpy buffer1 (off + 1) bs
    | none => none

/-- The checksum loop of `sendToBuffer`: `crc = update_crc(crc, buffer[i])` for
`i` from 0 below `crc_index`. -/
def crcOfBuffer (buffer : List Nat) (crc_index : Nat) : Nat :=
  (List.range crc_index).foldl (fun crc i => update_crc crc (buffer.getD i 0)) 0

/-- Embedding of `sendToBuffer<T>(msg, buffer)`: the returned length and the
buffer after the call. -/
def sendToBuffer {T : Type} [SerialMessage T] (msg : T) (buffer : List Nat) :
    Option (Nat × List Nat) :=
  match store buffer 0 START_BYTE with
  | none => none
  | some buffer0 =>
    match store buffer0 1 (SerialMessage.getID T).toByte with
    | none => none
    | some buffer1 =>
      match store buffer1 2 (SerialMessage.size T % 256) with
      | none => none
      | some buffer2 =>
        match memcpy buffer2 3 (SerialMessage.objectBytes msg) with
        | none => none
        | some buffer3 =>
          let crc_index := 3 + SerialMessage.size T
          let crc := crcOfBuffer buffer3 crc_index
          match store buffer3 crc_index crc with
          | none => none
          | some buffer4 => some (crc_index + 1, buffer4)

/-- Embedding of `getBytes<T>` of the Python binding: encode into a local
buffer of `sizeof(protocol::Message)` bytes (whose initial contents are
given by `local_buffer`) and return the first `len` bytes. -/
def getBytes {T : Type} [SerialMessage T] (msg : T)
    (local_buffer : List Nat := List.replicate sizeofMessage 0) : Option (List Nat) :=
  match sendToBuffer msg local_buffer with
  | none => none
  | some (len, buffer) => some (buffer.take len)

/-! ## Parser -/

/-- The enumeration `Parser::ParseState`. -/
inductive ParseState where
  | IDLE
  | GOT_START_BYTE
  | GOT_ID
  | GOT_LENGTH
  | GOT_PAYLOAD
deriving DecidableEq, Repr

/-- The data members of `Parser`. -/
structure Parser where
  parse_state : ParseState := .IDLE
  payload_bytes_received : Nat := 0
  msg_buffer : Message
deriving DecidableEq, Repr

/-- A value-initialised `Message`: `start_byte` from its member initialiser, the
other members zero. -/
def Message.init : Message :=
  { id := 0, len := 0, buffer := List.replicate maxPayloadSize 0, crc := 0 }

/-- A parser right after construction: the member initialisers give phase
`IDLE`, `payload_bytes_received = 0` and `msg_buffer.start_byte = 0xA5`; the
remaining members of `msg_buffer` are zero (static or value initialisation). -/
def Parser.init : Parser :=
  { msg_buffer := Message.init }

/-- Embedding of `Parser::parseByte(byte, msg)`: the returned flag, the parser
after the call and the caller's message after the call. The result is `none`
when the call stores outside `payload.buffer`. -/
def parseByte (byte : Nat) (p : Parser) (msg : Message) : Option (Bool × Parser × Message) :=
  match p.parse_state with
  | .IDLE =>
    if byte = START_BYTE then
      some (false,
        { p with
          msg_buffer := { p.msg_buffer with crc := update_crc p.msg_buffer.crc byte }
          parse_state := .GOT_START_BYTE }, msg)
    else
      some (false, p, msg)
  | .GOT_START_BYTE =>
    some (false,
      { p with
        msg_buffer := { p.msg_buffer with id := byte, crc := update_crc p.msg_buffer.crc byte }
        parse_state := .GOT_ID }, msg)
  | .GOT_ID =>
    let mb : Message := { p.msg_buffer with len := byte, crc := update_crc p.msg_buffer.crc byte }
    if mb.len > 0 then
      some (false,
        { parse_state := .GOT_LENGTH, payload_bytes_received := 0, msg_buffer := mb }, msg)
    else
      some (false, { p with parse_state := .GOT_PAYLOAD, msg_buffer := mb }, msg)
  | .GOT_LENGTH =>
    if p.payload_bytes_received < maxPayloadSize then
      let mb : Message :=
        { p.msg_buffer with
          buffer := p.msg_buffer.buffer.set p.payload_bytes_received byte
          crc := update_crc p.msg_buffer.crc byte }
      let received := p.payload_bytes_received + 1
      if received ≥ mb.len then
        some (false,
          { parse_state := .GOT_PAYLOAD, payload_bytes_received := received, msg_buffer := mb },
          msg)
      else
        some (false,
          { parse_state := .GOT_LENGTH, payload_bytes_received := received, msg_buffer := mb },
          msg)
    else
      none
  | .GOT_PAYLOAD =>
    if byte = p.msg_buffer.crc then
      some (true,
        { p with msg_buffer := { p.msg_buffer with crc := 0 }, parse_state := .IDLE },
        p.msg_buffer)
    else
      some (false,
        { p with msg_buffer := { p.msg_buffer with crc := 0 }, parse_state := .IDLE }, msg)

/-- Feeding a byte sequence to the parser, one `parseByte` call per byte, in
order: the flags returned by the calls, the final parser and the final
contents of the caller's message. -/
def parseBytes : List Nat → Parser → Message → Option (List Bool × Parser × Message)
  | [], p, msg => some ([], p, msg)
  | b :: bs, p, msg =>
    match parseByte b p msg with
    | none => none
    | some (r, p1, msg1) =>
      match parseBytes bs p1 msg1 with
      | none => none
      | some (rs, p2, msg2) => some (r :: rs, p2, msg2)

/-- The checksum of a byte sequence: `update_crc` folded from accumulator 0. -/
def crcOf (bytes : List Nat) : Nat := bytes.foldl update_crc 0

/-- The frame header and payload of a value: start byte, ID, length, object bytes. -/
def frameBody {T : Type} [SerialMessage T] (msg : T) : List Nat :=
  START_BYTE :: (SerialMessage.getID T).toByte :: (SerialMessage.size T % 256)
    :: SerialMessage.objectBytes msg

/-- The frame of a value: the body followed by its checksum. -/
def frameOf {T : Type} [SerialMessage T] (msg : T) : List Nat :=
  frameBody msg ++ [crcOf (frameBody msg)]


/-- The scratch buffer after storing the bytes `ps` at consecutive indices from `k`. -/
def storeBytes : List Nat → Nat → List Nat → List Nat
  | buffer, _, [] => buffer
  | buffer, k, b :: bs => storeBytes (buffer.set k b) (k + 1) bs

/-- The parser after the start byte, ID byte, length byte and payload of a frame,
started in phase IDLE: it awaits the checksum. -/
def afterBody (p : Parser) (i : Nat) (ps : List Nat) : Parser :=
  { parse_state := .GOT_PAYLOAD
    payload_bytes_received := if ps.length = 0 then p.payload_bytes_received else ps.length
    msg_buffer :=
      { start_byte := p.msg_buffer.start_byte, id := i, len := ps.length
        buffer := storeBytes p.msg_buffer.buffer 0 ps
        crc := (START_BYTE :: i :: ps.length :: ps).foldl update_crc p.msg_buffer.crc } }

/-- A freshly constructed parser: the member initialisers give phase `IDLE`,
`payload_bytes_received = 0` and `start_byte = 0xA5`; the checksum accumulator
is 0; `payload.buffer` has `maxPayloadSize` entries. The members `id`, `len`
and the contents of `payload.buffer` are arbitrary. -/
def Parser.Fresh (p : Parser) : Prop :=
  p.parse_state = .IDLE ∧ p.payload_bytes_received = 0 ∧ p.msg_buffer.start_byte = 0xA5
    ∧ p.msg_buffer.crc = 0 ∧ p.msg_buffer.buffer.length = maxPayloadSize

/-- The parser left by a whole frame `START_BYTE, i, length, ps, c` fed in
phase IDLE: back in phase IDLE with the accumulator cleared. -/
def afterFrame (p : Parser) (i : Nat) (ps : List Nat) : Parser :=
  { parse_state := .IDLE
    payload_bytes_received := (afterBody p i ps).payload_bytes_received
    msg_buffer :=
      { start_byte := p.msg_buffer.start_byte, id := i, len := ps.length
        buffer := storeBytes p.msg_buffer.buffer 0 ps, crc := 0 } }

/-! ## Specification-side objects for the checksum -/

/-- The polynomial over GF(2) whose coefficient of `x^i` is bit `i` of a byte. -/
noncomputable def bytePoly (n : Nat) : Polynomial (ZMod 2) :=
  ∑ i ∈ Finset.range 8, if n.testBit i then (Polynomial.X : Polynomial (ZMod 2)) ^ i else 0

/-- The generator `x^8 + x^2 + x + 1` of CRC-8 with polynomial `0x07`. -/
noncomputable def crcPoly : Polynomial (ZMod 2) :=
  Polynomial.X ^ 8 + Polynomial.X ^ 2 + Polynomial.X + 1

/-- One iteration of the checksum as the specification words it: if the top
bit is set, shift left one bit and XOR with `0x07`, else shift left one bit;
arithmetic truncated to 8 bits. -/
def specShift (r : Nat) : Nat :=
  if r.testBit 7 then ((r <<< 1) ^^^ 0x07) % 256 else (r <<< 1) % 256

/-- The checksum as the specification words it: XOR the accumulator with the
input, then 8 iterations of `specShift`. -/
def crc8Spec (accumulator input : Nat) : Nat :=
  specShift^[8] ((accumulator ^^^ input) % 256)

/-- Inverse of `crcShift` on bytes: undo the conditional XOR, shift right and
restore the top bit. -/
def crcUnshift (y : Nat) : Nat :=
  if y % 2 = 1 then ((y ^^^ 0x07) >>> 1) ||| 0x80 else y >>> 1

/-! ## Frames and corruption -/

/-- The frame with ID byte `i` and payload `ps`: start byte, ID, length, payload
and the checksum of all of them. -/
def rawFrame (i : Nat) (ps : List Nat) : List Nat :=
  START_BYTE :: i :: ps.length :: ps ++ [crcOf (START_BYTE :: i :: ps.length :: ps)]

/-- A value of one of the registered types: a member of the union
`payload.message` of `Message` together with its tag. -/
inductive AnyMessage where
  | heartbeat (m : Heartbeat)
  | request (m : Request)
  | response (m : Response)
deriving DecidableEq, Repr

/-- The instance of `getID<T>()` for the type of a value. -/
def AnyMessage.getID : AnyMessage → MessageID
  | .heartbeat _ => SerialMessage.getID Heartbeat
  | .request _ => SerialMessage.getID Request
  | .response _ => SerialMessage.getID Response

/-- The value `sizeof(T)` for the type of a value. -/
def AnyMessage.size : AnyMessage → Nat
  | .heartbeat _ => SerialMessage.size Heartbeat
  | .request _ => SerialMessage.size Request
  | .response _ => SerialMessage.size Response

/-- The object representation of a value. -/
def AnyMessage.objectBytes : AnyMessage → List Nat
  | .heartbeat m => SerialMessage.objectBytes m
  | .request m => SerialMessage.objectBytes m
  | .response m => SerialMessage.objectBytes m

/-- The instance of `sendToBuffer<T>` for the type of a value. -/
def AnyMessage.sendToBuffer : AnyMessage → List Nat → Option (Nat × List Nat)
  | .heartbeat m, buffer => protocol.sendToBuffer m buffer
  | .request m, buffer => protocol.sendToBuffer m buffer
  | .response m, buffer => protocol.sendToBuffer m buffer

/-- The instance of `getBytes<T>` for the type of a value. -/
def AnyMessage.getBytes : AnyMessage → Option (List Nat)
  | .heartbeat m => protocol.getBytes m
  | .request m => protocol.getBytes m
  | .response m => protocol.getBytes m

/-- The index of `payload.buffer` at which the next `parseByte` call stores its
byte: `payload_bytes_received` in phase GOT_LENGTH, no store in other phases. -/
def storeIndex (p : Parser) : Option Nat :=
  match p.parse_state with
  | .GOT_LENGTH => some p.payload_bytes_received
  | _ => none

/-- The parser that has consumed `A5 00 04 01 00 00 00`, the frame of
`Heartbeat{count=1}` short of its checksum `0x18`. -/
def Parser.awaitingChecksum : Parser :=
  { parse_state := .GOT_PAYLOAD
    payload_bytes_received := 4
    msg_buffer := { id := 0, len := 4, buffer := [1, 0, 0, 0, 0, 0, 0, 0, 0, 0, 0, 0],
                    crc := 0x18 } }

/-- Feeding a byte sequence to the parser and logging every call: the flag the
call returned and the caller's message after the call; with the final parser. -/
def parseLog : List Nat → Parser → Message → Option (List (Bool × Message) × Parser)
  | [], p, _ => some ([], p)
  | b :: bs, p, msg =>
    match parseByte b p msg with
    | none => none
    | some (r, p1, msg1) =>
      match parseLog bs p1 msg1 with
      | none => none
      | some (log, p2) => some ((r, msg1) :: log, p2)

/-- The messages delivered during a logged run: the caller's message after each
call that returned true. -/
def delivered (log : List (Bool × Message)) : List Message :=
  (log.filter (fun e => e.1)).map (fun e => e.2)

/-- The frame of a value of a registered type. -/
def AnyMessage.frame (v : AnyMessage) : List Nat :=
  rawFrame v.getID.toByte v.objectBytes

/-- A parser at rest between frames: phase `IDLE`, accumulator 0, the start
byte of `msg_buffer` untouched and `payload.buffer` of `maxPayloadSize` entries.
Unlike a fresh parser it may hold a stale `payload_bytes_received`. -/
def Parser.Resting (p : Parser) : Prop :=
  p.parse_state = .IDLE ∧ p.msg_buffer.start_byte = 0xA5 ∧ p.msg_buffer.crc = 0
    ∧ p.msg_buffer.buffer.length = maxPayloadSize

/-- The invariant of the parser over any run from a fresh state: in phase `IDLE`
the checksum accumulator is 0; in phase `GOT_LENGTH` the declared length is
positive and more than the payload bytes received so far. -/
def Parser.Inv (p : Parser) : Prop :=
  (p.parse_state = .IDLE → p.msg_buffer.crc = 0)
    ∧ (p.parse_state = .GOT_LENGTH →
        0 < p.msg_buffer.len ∧ p.payload_bytes_received < p.msg_buffer.len)

/-- The parser left by the whole frame `A5 00 04 01 00 00 00 18` of
`Heartbeat{count=1}` fed to the initial parser. -/
def Parser.afterHeartbeat : Parser :=
  { parse_state := .IDLE
    payload_bytes_received := 4
    msg_buffer := { id := 0, len := 4, buffer := [1, 0, 0, 0, 0, 0, 0, 0, 0, 0, 0, 0],
                    crc := 0 } }

/-- The parser that has consumed `A5 00 04 01 00`: two of the four payload
bytes of the frame of `Heartbeat{count=1}`. -/
def Parser.midPayload : Parser :=
  { parse_state := .GOT_LENGTH
    payload_bytes_received := 2
    msg_buffer := { id := 0, len := 4, buffer := [1, 0, 0, 0, 0, 0, 0, 0, 0, 0, 0, 0],
                    crc := crcOf [0xA5, 0, 4, 1, 0] } }

theorem store_append (pre : List Nat) (x : Nat) (rest : List Nat) (v : Nat) :
    store (pre ++ x :: rest) pre.length v = some (pre ++ v :: rest) := by
  simp [store]

theorem memcpy_append (bs : List Nat) : ∀ (pre rest : List Nat), bs.length ≤ rest.length →
    memcpy (pre ++ rest) pre.length bs = some (pre ++ bs ++ rest.drop bs.length) := by
  induction bs with
  | nil => intro pre rest _; simp [memcpy]
  | cons b bs ih =>
    intro pre rest h
    cases rest with
    | nil => simp at h
    | cons x rest =>
      simp only [List.length_cons, Nat.succ_le_succ_iff] at h
      have h2 := ih (pre ++ [b]) rest h
      simp only [List.length_append, List.length_singleton, List.append_assoc,
        List.singleton_append] at h2
      simp [memcpy, store_append, h2]

theorem crcOfBuffer_eq_take (buffer : List Nat) (n : Nat) (h : n ≤ buffer.length) :
    crcOfBuffer buffer n = crcOf (buffer.take n) := by
  unfold crcOfBuffer crcOf
  induction n with
  | zero => simp
  | succ n ih =>
    have hn : n < buffer.length := h
    rw [List.range_succ, List.foldl_append, ih (Nat.le_of_lt hn), List.take_succ,
      List.foldl_append]
    simp [List.getD_eq_getElem?_getD, List.getElem?_eq_getElem hn]

theorem crcOfBuffer_append (pre rest : List Nat) :
    crcOfBuffer (pre ++ rest) pre.length = crcOf pre := by
  rw [crcOfBuffer_eq_take _ _ (by simp)]
  simp

theorem sendToBuffer_eq {T : Type} [SerialMessage T] (msg : T) (buffer : List Nat)
    (hsize : (SerialMessage.objectBytes msg).length = SerialMessage.size T)
    (hbuf : 3 + SerialMessage.size T + 1 ≤ buffer.length) :
    sendToBuffer msg buffer
      = some (3 + SerialMessage.size T + 1,
          frameOf msg ++ buffer.drop (3 + SerialMessage.size T + 1)) := by
  obtain ⟨b0, b1, b2, rest, rfl⟩ : ∃ b0 b1 b2 rest, buffer = b0 :: b1 :: b2 :: rest := by
    match buffer, hbuf with
    | b0 :: b1 :: b2 :: rest, _ => exact ⟨b0, b1, b2, rest, rfl⟩
    | [], h => simp at h
    | [_], h => simp at h
    | [_, _], h => simp at h; omega
  have hrest : (SerialMessage.objectBytes msg).length + 1 ≤ rest.length := by
    simp only [List.length_cons] at hbuf; omega
  have h0 : ∀ v, store (b0 :: b1 :: b2 :: rest) 0 v = some (v :: b1 :: b2 :: rest) :=
    fun v => store_append [] b0 _ v
  have h1 : ∀ a v, store (a :: b1 :: b2 :: rest) 1 v = some (a :: v :: b2 :: rest) :=
    fun a v => store_append [a] b1 _ v
  have h2 : ∀ a b v, store (a :: b :: b2 :: rest) 2 v = some (a :: b :: v :: rest) :=
    fun a b v => store_append [a, b] b2 _ v
  have h3 := memcpy_append (SerialMessage.objectBytes msg)
    [START_BYTE, (SerialMessage.getID T).toByte, SerialMessage.size T % 256] rest
    (Nat.le_of_succ_le hrest)
  obtain ⟨c, tail, hct⟩ : ∃ c tail,
      rest.drop (SerialMessage.objectBytes msg).length = c :: tail := by
    cases hd : rest.drop (SerialMessage.objectBytes msg).length with
    | nil =>
      have := congrArg List.length hd
      simp at this; omega
    | cons c tail => exact ⟨c, tail, rfl⟩
  have htail : tail = rest.drop ((SerialMessage.objectBytes msg).length + 1) := by
    have := congrArg List.tail hct
    simpa [List.drop_drop, Nat.add_comm] using this.symm
  have hidx : 3 + SerialMessage.size T = (frameBody msg).length := by
    simp [frameBody, hsize]; omega
  simp only [List.length_cons, List.length_nil, List.cons_append, List.nil_append] at h3
  simp only [sendToBuffer, h0, h1, h2]
  rw [show (0 + 1 + 1 + 1) = 3 from rfl] at h3
  rw [h3, hct]
  have e1 : START_BYTE :: (SerialMessage.getID T).toByte :: (SerialMessage.size T % 256)
      :: (SerialMessage.objectBytes msg ++ c :: tail) = frameBody msg ++ c :: tail := by
    simp [frameBody]
  simp only [e1, hidx, crcOfBuffer_append, store_append]
  simp [frameOf, htail, ← hsize, frameBody]

/-! ## Lemmas on the parser -/

theorem parseBytes_nil (p : Parser) (msg : Message) : parseBytes [] p msg = some ([], p, msg) := rfl

theorem parseBytes_cons (b : Nat) (bs : List Nat) (p : Parser) (msg : Message) :
    parseBytes (b :: bs) p msg =
      (parseByte b p msg).bind (fun r =>
        (parseBytes bs r.2.1 r.2.2).map (fun r2 => (r.1 :: r2.1, r2.2.1, r2.2.2))) := by
  rw [parseBytes]
  cases h1 : parseByte b p msg with
  | none => simp
  | some r =>
    obtain ⟨r, p1, m1⟩ := r
    cases h2 : parseBytes bs p1 m1 with
    | none => simp [h2]
    | some r2 => simp [h2]

theorem parseBytes_append (xs ys : List Nat) : ∀ (p : Parser) (msg : Message),
    parseBytes (xs ++ ys) p msg =
      (parseBytes xs p msg).bind (fun r =>
        (parseBytes ys r.2.1 r.2.2).map (fun r2 => (r.1 ++ r2.1, r2.2.1, r2.2.2))) := by
  induction xs with
  | nil =>
    intro p msg
    rw [List.nil_append, parseBytes_nil]
    simp
  | cons x xs ih =>
    intro p msg
    rw [List.cons_append, parseBytes_cons, parseBytes_cons]
    cases h1 : parseByte x p msg with
    | none => simp
    | some r =>
      simp only [Option.bind_some, ih]
      cases h2 : parseBytes xs r.2.1 r.2.2 with
      | none => simp [h2]
      | some r2 =>
        cases h3 : parseBytes ys r2.2.1 r2.2.2 with
        | none => simp [h2, h3]
        | some r3 => simp [h2, h3]

theorem parseBytes_append_some (xs ys : List Nat) (p p1 p2 : Parser) (msg m1 m2 : Message)
    (rs rs2 : List Bool) (h1 : parseBytes xs p msg = some (rs, p1, m1))
    (h2 : parseBytes ys p1 m1 = some (rs2, p2, m2)) :
    parseBytes (xs ++ ys) p msg = some (rs ++ rs2, p2, m2) := by
  rw [parseBytes_append, h1]
  simp [h2]

theorem parseBytes_cons_some (b : Nat) (bs : List Nat) (p p1 p2 : Parser) (msg m1 m2 : Message)
    (r : Bool) (rs : List Bool) (h1 : parseByte b p msg = some (r, p1, m1))
    (h2 : parseBytes bs p1 m1 = some (rs, p2, m2)) :
    parseBytes (b :: bs) p msg = some (r :: rs, p2, m2) := by
  rw [parseBytes, h1]
  simp [h2]

theorem parseByte_idle_start (n : Nat) (mb msg : Message) :
    parseByte START_BYTE { parse_state := .IDLE, payload_bytes_received := n, msg_buffer := mb } msg
      = some (false,
          { parse_state := .GOT_START_BYTE, payload_bytes_received := n,
            msg_buffer := { start_byte := mb.start_byte, id := mb.id, len := mb.len,
                            buffer := mb.buffer, crc := update_crc mb.crc START_BYTE } }, msg) := by
  simp [parseByte]

theorem parseByte_got_start (b n : Nat) (mb msg : Message) :
    parseByte b
        { parse_state := .GOT_START_BYTE, payload_bytes_received := n, msg_buffer := mb } msg
      = some (false,
          { parse_state := .GOT_ID, payload_bytes_received := n,
            msg_buffer := { start_byte := mb.start_byte, id := b, len := mb.len,
                            buffer := mb.buffer, crc := update_crc mb.crc b } }, msg) := by
  simp [parseByte]

theorem parseByte_got_id_pos (b n : Nat) (mb msg : Message) (h : 0 < b) :
    parseByte b { parse_state := .GOT_ID, payload_bytes_received := n, msg_buffer := mb } msg
      = some (false,
          { parse_state := .GOT_LENGTH, payload_bytes_received := 0,
            msg_buffer := { start_byte := mb.start_byte, id := mb.id, len := b,
                            buffer := mb.buffer, crc := update_crc mb.crc b } }, msg) := by
  simp [parseByte, h]

theorem parseByte_got_id_zero (n : Nat) (mb msg : Message) :
    parseByte 0 { parse_state := .GOT_ID, payload_bytes_received := n, msg_buffer := mb } msg
      = some (false,
          { parse_state := .GOT_PAYLOAD, payload_bytes_received := n,
            msg_buffer := { start_byte := mb.start_byte, id := mb.id, len := 0,
                            buffer := mb.buffer, crc := update_crc mb.crc 0 } }, msg) := by
  simp [parseByte]

theorem parseByte_got_length (b k : Nat) (mb msg : Message) (h2 : k < maxPayloadSize) :
    parseByte b { parse_state := .GOT_LENGTH, payload_bytes_received := k, msg_buffer := mb } msg
      = some (false,
          { parse_state := if mb.len ≤ k + 1 then .GOT_PAYLOAD else .GOT_LENGTH,
            payload_bytes_received := k + 1,
            msg_buffer := { start_byte := mb.start_byte, id := mb.id, len := mb.len,
                            buffer := mb.buffer.set k b, crc := update_crc mb.crc b } }, msg) := by
  by_cases h : mb.len ≤ k + 1 <;> simp [parseByte, h, h2]

theorem parseByte_got_length_overflow (b k : Nat) (mb msg : Message) (h2 : maxPayloadSize ≤ k) :
    parseByte b { parse_state := .GOT_LENGTH, payload_bytes_received := k, msg_buffer := mb } msg
      = none := by
  simp [parseByte, Nat.not_lt.mpr h2]

theorem parseByte_got_payload (b n : Nat) (mb msg : Message) :
    parseByte b { parse_state := .GOT_PAYLOAD, payload_bytes_received := n, msg_buffer := mb } msg
      = some (decide (b = mb.crc),
          { parse_state := .IDLE, payload_bytes_received := n,
            msg_buffer := { start_byte := mb.start_byte, id := mb.id, len := mb.len,
                            buffer := mb.buffer, crc := 0 } },
          if b = mb.crc then mb else msg) := by
  by_cases h : b = mb.crc <;> simp [parseByte, h]

/-- Payload bytes that do not complete the declared length keep phase GOT_LENGTH. -/
theorem parseBytes_payload_partial (ps : List Nat) :
    ∀ (k : Nat) (buffer : List Nat) (crc : Nat) (sb i len : Nat) (msg : Message),
    k + ps.length < len → k + ps.length ≤ maxPayloadSize →
    parseBytes ps
        { parse_state := .GOT_LENGTH, payload_bytes_received := k,
          msg_buffer :=
            { start_byte := sb, id := i, len := len, buffer := buffer, crc := crc } } msg
      = some (List.replicate ps.length false,
          { parse_state := .GOT_LENGTH, payload_bytes_received := k + ps.length,
            msg_buffer := { start_byte := sb, id := i, len := len,
                            buffer := storeBytes buffer k ps,
                            crc := ps.foldl update_crc crc } }, msg) := by
  induction ps with
  | nil => intro k buffer crc sb i len msg _ _; simp [parseBytes, storeBytes]
  | cons b bs ih =>
    intro k buffer crc sb i len msg h1 h2
    simp only [List.length_cons] at h1 h2
    have hk : k < maxPayloadSize := by omega
    have hk2 : ¬ (len ≤ k + 1) := by omega
    have hstep := parseByte_got_length b k
      { start_byte := sb, id := i, len := len, buffer := buffer, crc := crc } msg hk
    simp only [hk2, if_false] at hstep
    have hrest := ih (k + 1) (buffer.set k b) (update_crc crc b) sb i len msg (by omega) (by omega)
    rw [parseBytes_cons_some b bs _ _ _ _ _ _ _ _ hstep hrest]
    simp [storeBytes, Nat.add_assoc, Nat.add_comm 1, List.replicate_succ]

theorem storeBytes_append (xs ys : List Nat) : ∀ (buffer : List Nat) (k : Nat),
    storeBytes buffer k (xs ++ ys) = storeBytes (storeBytes buffer k xs) (k + xs.length) ys := by
  induction xs with
  | nil => intro buffer k; simp [storeBytes]
  | cons x xs ih =>
    intro buffer k
    simp [storeBytes, ih, Nat.add_assoc, Nat.add_comm 1]

theorem parseBytes_body (i : Nat) (ps : List Nat) (p : Parser) (msg : Message)
    (hs : p.parse_state = .IDLE) (hlen : ps.length ≤ maxPayloadSize) :
    parseBytes (START_BYTE :: i :: ps.length :: ps) p msg
      = some (List.replicate (3 + ps.length) false, afterBody p i ps, msg) := by
  obtain ⟨st, pbr, mb⟩ := p
  simp only at hs
  subst hs
  have h1 := parseByte_idle_start pbr mb msg
  have h2 := parseByte_got_start i pbr
    { start_byte := mb.start_byte, id := mb.id, len := mb.len, buffer := mb.buffer,
      crc := update_crc mb.crc START_BYTE } msg
  rcases List.eq_nil_or_concat ps with rfl | ⟨init, last, rfl⟩
  · have h3 := parseByte_got_id_zero pbr
      { start_byte := mb.start_byte, id := i, len := mb.len, buffer := mb.buffer,
        crc := update_crc (update_crc mb.crc START_BYTE) i } msg
    rw [List.length_nil, parseBytes_cons_some _ _ _ _ _ _ _ _ _ _ h1
      (parseBytes_cons_some _ _ _ _ _ _ _ _ _ _ h2
        (parseBytes_cons_some _ _ _ _ _ _ _ _ _ _ h3 (parseBytes_nil _ _)))]
    simp [afterBody, storeBytes]
  · rw [List.concat_eq_append] at hlen ⊢
    have hl : (init ++ [last]).length = init.length + 1 := by simp
    rw [hl] at hlen ⊢
    have h3 := parseByte_got_id_pos (init.length + 1) pbr
      { start_byte := mb.start_byte, id := i, len := mb.len, buffer := mb.buffer,
        crc := update_crc (update_crc mb.crc START_BYTE) i } msg (Nat.succ_pos _)
    have hp := parseBytes_payload_partial init 0 mb.buffer
      (update_crc (update_crc (update_crc mb.crc START_BYTE) i) (init.length + 1))
      mb.start_byte i (init.length + 1) msg (by omega) (by omega)
    have hlast := parseByte_got_length last (0 + init.length)
      { start_byte := mb.start_byte, id := i, len := init.length + 1
        buffer := storeBytes mb.buffer 0 init
        crc := init.foldl update_crc
          (update_crc (update_crc (update_crc mb.crc START_BYTE) i) (init.length + 1)) }
      msg (by omega)
    have hpl := parseBytes_append_some init [last] _ _ _ _ _ _ _ _ hp
      (parseBytes_cons_some last [] _ _ _ _ _ _ _ _ hlast (parseBytes_nil _ _))
    rw [parseBytes_cons_some _ _ _ _ _ _ _ _ _ _ h1
      (parseBytes_cons_some _ _ _ _ _ _ _ _ _ _ h2
        (parseBytes_cons_some _ _ _ _ _ _ _ _ _ _ h3 hpl))]
    simp [afterBody, storeBytes_append, storeBytes, List.replicate_succ', List.replicate_add]

theorem maxPayloadSize_eq : maxPayloadSize = 12 := by decide

theorem init_fresh : Parser.init.Fresh := by
  simp [Parser.Fresh, Parser.init, Message.init]

theorem storeBytes_eq (ps : List Nat) : ∀ (pre rest : List Nat), ps.length ≤ rest.length →
    storeBytes (pre ++ rest) pre.length ps = pre ++ ps ++ rest.drop ps.length := by
  induction ps with
  | nil => intro pre rest _; simp [storeBytes]
  | cons b bs ih =>
    intro pre rest h
    cases rest with
    | nil => simp at h
    | cons x rest =>
      simp only [List.length_cons, Nat.succ_le_succ_iff] at h
      have h2 := ih (pre ++ [b]) rest h
      simp only [List.length_append, List.length_singleton, List.append_assoc,
        List.singleton_append] at h2
      simp [storeBytes, h2]

theorem storeBytes_zero (ps buffer : List Nat) (h : ps.length ≤ buffer.length) :
    storeBytes buffer 0 ps = ps ++ buffer.drop ps.length := by
  simpa using storeBytes_eq ps [] buffer h

/-- A whole frame fed in phase IDLE: every call before the last returns false,
the last returns whether the checksum byte equals the accumulated checksum. -/
theorem parseBytes_frame (i : Nat) (ps : List Nat) (c : Nat) (p : Parser) (msg : Message)
    (hs : p.parse_state = .IDLE) (hlen : ps.length ≤ maxPayloadSize) :
    parseBytes (START_BYTE :: i :: ps.length :: ps ++ [c]) p msg
      = some (List.replicate (3 + ps.length) false
            ++ [decide (c = (afterBody p i ps).msg_buffer.crc)],
          afterFrame p i ps,
          if c = (afterBody p i ps).msg_buffer.crc then (afterBody p i ps).msg_buffer
          else msg) := by
  have hb := parseBytes_body i ps p msg hs hlen
  have hc := parseByte_got_payload c (afterBody p i ps).payload_bytes_received
    (afterBody p i ps).msg_buffer msg
  have := parseBytes_append_some (START_BYTE :: i :: ps.length :: ps) [c] _ _ _ _ _ _ _ _ hb
    (parseBytes_cons_some c [] _ _ _ _ _ _ _ _ hc (parseBytes_nil _ _))
  simpa [afterFrame, afterBody] using this

theorem frameBody_length {T : Type} [SerialMessage T] (msg : T)
    (hsize : (SerialMessage.objectBytes msg).length = SerialMessage.size T) :
    (frameBody msg).length = 3 + SerialMessage.size T := by
  simp [frameBody, hsize]; omega

theorem frameOf_length {T : Type} [SerialMessage T] (msg : T)
    (hsize : (SerialMessage.objectBytes msg).length = SerialMessage.size T) :
    (frameOf msg).length = 3 + SerialMessage.size T + 1 := by
  simp [frameOf, frameBody_length msg hsize]

/-- Layout of the buffer written by `sendToBuffer`, for any registered type. -/
theorem sendToBuffer_layout_of {T : Type} [SerialMessage T] (msg : T) (buffer : List Nat)
    (hsize : (SerialMessage.objectBytes msg).length = SerialMessage.size T)
    (hbuf : 3 + SerialMessage.size T + 1 ≤ buffer.length) :
    ∃ out, sendToBuffer msg buffer = some (3 + SerialMessage.size T + 1, out)
      ∧ out.length = buffer.length
      ∧ out.take 3 = [START_BYTE, (SerialMessage.getID T).toByte, SerialMessage.size T % 256]
      ∧ (out.drop 3).take (SerialMessage.size T) = SerialMessage.objectBytes msg
      ∧ out.getD (3 + SerialMessage.size T) 0 = crcOf (out.take (3 + SerialMessage.size T))
      ∧ out.drop (3 + SerialMessage.size T + 1) = buffer.drop (3 + SerialMessage.size T + 1)
      ∧ out.take (3 + SerialMessage.size T + 1) = frameOf msg := by
  refine ⟨_, sendToBuffer_eq msg buffer hsize hbuf, ?_, ?_, ?_, ?_, ?_, ?_⟩
  · simp [frameOf_length msg hsize]; omega
  · simp [frameOf, frameBody]
  · simp [frameOf, frameBody, ← hsize]
  · have hb := frameBody_length msg hsize
    rw [← hb]
    simp only [frameOf, List.append_assoc, List.singleton_append, List.getD_eq_getElem?_getD,
      List.take_left']
    rw [List.getElem?_append_right (Nat.le_refl _)]
    simp
  · have hf := frameOf_length msg hsize
    rw [← hf]
    simp
  · have hf := frameOf_length msg hsize
    rw [← hf]
    simp

theorem afterBody_crc (p : Parser) (i : Nat) (ps : List Nat) (h : p.msg_buffer.crc = 0) :
    (afterBody p i ps).msg_buffer.crc = crcOf (START_BYTE :: i :: ps.length :: ps) := by
  simp [afterBody, crcOf, h]

/-- Decoding the frame written by `sendToBuffer`, for any registered type whose
payload fits the scratch buffer. -/
theorem roundtrip_of {T : Type} [SerialMessage T] (v : T) (buffer : List Nat) (p : Parser)
    (msg : Message)
    (hsize : (SerialMessage.objectBytes v).length = SerialMessage.size T)
    (hmax : SerialMessage.size T ≤ maxPayloadSize)
    (hbuf : 3 + SerialMessage.size T + 1 ≤ buffer.length) (hp : p.Fresh) :
    ∃ out m, sendToBuffer v buffer = some (3 + SerialMessage.size T + 1, out)
      ∧ parseBytes (out.take (3 + SerialMessage.size T + 1)) p msg
          = some (List.replicate (3 + SerialMessage.size T) false ++ [true],
              afterFrame p (SerialMessage.getID T).toByte (SerialMessage.objectBytes v), m)
      ∧ m.start_byte = 0xA5
      ∧ m.id = (SerialMessage.getID T).toByte
      ∧ m.len = SerialMessage.size T
      ∧ m.buffer = SerialMessage.objectBytes v ++ p.msg_buffer.buffer.drop (SerialMessage.size T)
      ∧ m.crc = crcOf (frameBody v) := by
  obtain ⟨hs, _, hsb, hcrc, hblen⟩ := hp
  obtain ⟨out, h1, _, _, _, _, _, h7⟩ := sendToBuffer_layout_of v buffer hsize hbuf
  have h256 : SerialMessage.size T % 256 = SerialMessage.size T := by
    rw [maxPayloadSize_eq] at hmax
    omega
  have hfr := parseBytes_frame (SerialMessage.getID T).toByte (SerialMessage.objectBytes v)
    (crcOf (frameBody v)) p msg hs (by rw [hsize]; exact hmax)
  have hc :
      (afterBody p (SerialMessage.getID T).toByte (SerialMessage.objectBytes v)).msg_buffer.crc
        = crcOf (frameBody v) := by
    rw [afterBody_crc _ _ _ hcrc, hsize, frameBody, h256]
  rw [hc, hsize] at hfr
  simp only [decide_True, if_true] at hfr
  refine ⟨out,
    (afterBody p (SerialMessage.getID T).toByte (SerialMessage.objectBytes v)).msg_buffer,
    h1, ?_, ?_, ?_, ?_, ?_, ?_⟩
  · rw [h7]
    simp only [frameOf, frameBody, h256, List.cons_append] at hfr ⊢
    exact hfr
  · simpa [afterBody] using hsb
  · simp [afterBody]
  · simp [afterBody, hsize]
  · simp only [afterBody]
    rw [storeBytes_zero _ _ (by rw [hsize, hblen]; exact hmax), hsize]
  · exact hc

theorem readLe32_le32 (n : Nat) (rest : List Nat) (h : n < 4294967296) :
    readLe32 (le32 n ++ rest) 0 = n := by
  simp only [readLe32, le32, List.cons_append, List.nil_append, List.getD_cons_zero,
    List.getD_cons_succ, Nat.zero_add]
  omega

theorem readLe32_skip (a b c d : Nat) (rest : List Nat) (off : Nat) :
    readLe32 (a :: b :: c :: d :: rest) (off + 4) = readLe32 rest off := by
  simp [readLe32, List.getD_eq_getElem?_getD, Nat.add_right_comm _ 4]

theorem int32Bits_lt (i : Int) : int32Bits i < 4294967296 := by
  unfold int32Bits
  omega

theorem toInt32_int32Bits (i : Int) (h : isInt32 i) : toInt32 (int32Bits i) = i := by
  obtain ⟨h1, h2⟩ := h
  unfold toInt32 int32Bits
  split <;> omega

/-! ## Lemmas on the checksum -/

set_option maxRecDepth 100000 in
theorem crcShift_testBit : ∀ r < 256, ∀ i < 8,
    (crcShift r).testBit i
      = xor (decide (0 < i) && r.testBit (i - 1)) (r.testBit 7 && decide (i < 3)) := by
  decide

theorem ite_xor_poly (p q : Bool) (x : Polynomial (ZMod 2)) :
    (if xor p q = true then x else 0)
      = (if p = true then x else 0) + (if q = true then x else 0) := by
  cases p <;> cases q <;> simp [CharTwo.add_self_eq_zero]

theorem ite_and_poly (p : Bool) (q : Prop) [Decidable q] (x : Polynomial (ZMod 2)) :
    (if (p && decide q) = true then x else 0) = if q then (if p = true then x else 0) else 0 := by
  cases p <;> by_cases q <;> simp [*]

theorem ite_and_poly2 (p : Bool) (q : Prop) [Decidable q] (x : Polynomial (ZMod 2)) :
    (if (decide q && p) = true then x else 0) = if q then (if p = true then x else 0) else 0 := by
  cases p <;> by_cases q <;> simp [*]

theorem X_mul_ite (p : Bool) (j : Nat) :
    (Polynomial.X : Polynomial (ZMod 2)) * (if p = true then Polynomial.X ^ j else 0)
      = if p = true then Polynomial.X ^ (j + 1) else 0 := by
  cases p <;> simp [pow_succ']

theorem bytePoly_crcShift (r : Nat) (h : r < 256) :
    bytePoly (crcShift r) = Polynomial.X * bytePoly r + (if r.testBit 7 then crcPoly else 0) := by
  unfold bytePoly
  simp only [Finset.sum_range_succ, Finset.sum_range_zero, zero_add]
  rw [crcShift_testBit r h 0 (by decide), crcShift_testBit r h 1 (by decide),
    crcShift_testBit r h 2 (by decide), crcShift_testBit r h 3 (by decide),
    crcShift_testBit r h 4 (by decide), crcShift_testBit r h 5 (by decide),
    crcShift_testBit r h 6 (by decide), crcShift_testBit r h 7 (by decide)]
  simp only [ite_xor_poly, ite_and_poly, ite_and_poly2, mul_add, X_mul_ite]
  have h2 : (2 : Polynomial (ZMod 2)) = 0 := CharTwo.two_eq_zero
  cases r.testBit 7
  · simp
  · simp [crcPoly]
    linear_combination (-(Polynomial.X : Polynomial (ZMod 2)) ^ 8) * h2

theorem crcPoly_monic : crcPoly.Monic := by
  unfold crcPoly
  monicity!

theorem crcPoly_degree : crcPoly.degree = 8 := by
  unfold crcPoly
  compute_degree!

theorem bytePoly_degree_lt (n : Nat) : (bytePoly n).degree < 8 := by
  unfold bytePoly
  refine lt_of_le_of_lt (Polynomial.degree_sum_le _ _) ?_
  rw [Finset.sup_lt_iff (by decide)]
  intro i hi
  have hi8 : i < 8 := Finset.mem_range.mp hi
  split
  · exact lt_of_le_of_lt (Polynomial.degree_X_pow_le i) (by exact_mod_cast hi8)
  · simp only [Polynomial.degree_zero]
    exact WithBot.bot_lt_coe 8

set_option maxRecDepth 100000 in
theorem crcShift_lt : ∀ r < 256, crcShift r < 256 := by decide

theorem crcLoop_lt : ∀ (k r : Nat), r < 256 → crcLoop k r < 256
  | 0, _, h => h
  | k + 1, r, h => crcLoop_lt k (crcShift r) (crcShift_lt r h)

/-- After `k` iterations the register holds `r(x) * x^k` modulo the generator. -/
theorem bytePoly_crcLoop : ∀ (k r : Nat), r < 256 →
    bytePoly (crcLoop k r) %ₘ crcPoly = (bytePoly r * Polynomial.X ^ k) %ₘ crcPoly
  | 0, r, _ => by simp [crcLoop]
  | k + 1, r, h => by
    rw [crcLoop, bytePoly_crcLoop k (crcShift r) (crcShift_lt r h), bytePoly_crcShift r h]
    apply Polynomial.modByMonic_eq_of_dvd_sub crcPoly_monic
    split
    · refine ⟨Polynomial.X ^ k, ?_⟩
      ring
    · simp
      ring_nf
      simp

theorem bytePoly_update_crc (a b : Nat) :
    bytePoly (update_crc a b) = (bytePoly ((a ^^^ b) % 256) * Polynomial.X ^ 8) %ₘ crcPoly := by
  have hd : (a ^^^ b) % 256 < 256 := Nat.mod_lt _ (by decide)
  rw [← bytePoly_crcLoop 8 _ hd, update_crc]
  symm
  rw [Polynomial.modByMonic_eq_self_iff crcPoly_monic, crcPoly_degree]
  exact bytePoly_degree_lt _

theorem bytePoly_coeff (n i : Nat) :
    (bytePoly n).coeff i = if i < 8 ∧ n.testBit i = true then 1 else 0 := by
  unfold bytePoly
  rw [Polynomial.finset_sum_coeff]
  have : ∀ j ∈ Finset.range 8,
      (if n.testBit j = true then (Polynomial.X : Polynomial (ZMod 2)) ^ j else 0).coeff i
        = if j = i then (if n.testBit i = true then (1 : ZMod 2) else 0) else 0 := by
    intro j _
    by_cases hj : j = i
    · subst hj
      by_cases hb : n.testBit j = true <;> simp [hb]
    · by_cases hb : n.testBit j = true
      · simp [hb, hj, Polynomial.coeff_X_pow, Ne.symm hj]
      · simp [hb, hj]
  rw [Finset.sum_congr rfl this, Finset.sum_ite_eq']
  by_cases hi : i < 8 <;> by_cases hb : n.testBit i = true <;> simp [hi, hb]

theorem bytePoly_mod (n : Nat) : bytePoly (n % 256) = bytePoly n := by
  unfold bytePoly
  refine Finset.sum_congr rfl ?_
  intro i hi
  have hi8 : i < 8 := Finset.mem_range.mp hi
  have : (n % 256).testBit i = n.testBit i := by
    rw [show (256 : Nat) = 2 ^ 8 from rfl, Nat.testBit_mod_two_pow]
    simp [hi8]
  rw [this]

theorem update_crc_lt (a b : Nat) : update_crc a b < 256 :=
  crcLoop_lt 8 _ (Nat.mod_lt _ (by decide))

set_option maxRecDepth 100000 in
theorem crcLoop_eq_specShift : ∀ d < 256, crcLoop 8 d = specShift^[8] d := by decide

theorem update_crc_eq_crc8Spec (a b : Nat) : update_crc a b = crc8Spec a b :=
  crcLoop_eq_specShift _ (Nat.mod_lt _ (by decide))

/-! ## Lemmas on noise and corruption -/

theorem parseByte_idle_ne (b : Nat) (p : Parser) (msg : Message)
    (hs : p.parse_state = .IDLE) (hb : b ≠ START_BYTE) :
    parseByte b p msg = some (false, p, msg) := by
  simp [parseByte, hs, hb]

theorem parseBytes_noise (noise : List Nat) (p : Parser) (msg : Message)
    (hs : p.parse_state = .IDLE) (hn : ∀ b ∈ noise, b ≠ START_BYTE) :
    parseBytes noise p msg = some (List.replicate noise.length false, p, msg) := by
  induction noise with
  | nil => rfl
  | cons b bs ih =>
    have hb := parseByte_idle_ne b p msg hs (hn b (List.mem_cons_self _ _))
    have hrest := ih (fun x hx => hn x (List.mem_cons_of_mem _ hx))
    rw [parseBytes_cons_some b bs _ _ _ _ _ _ _ _ hb hrest]
    simp [List.replicate_succ]

set_option maxRecDepth 100000 in
theorem crcUnshift_crcShift : ∀ r < 256, crcUnshift (crcShift r) = r := by decide

theorem crcShift_inj (r s : Nat) (hr : r < 256) (hs : s < 256) (h : crcShift r = crcShift s) :
    r = s := by
  rw [← crcUnshift_crcShift r hr, ← crcUnshift_crcShift s hs, h]

theorem crcLoop_inj : ∀ (k r s : Nat), r < 256 → s < 256 → crcLoop k r = crcLoop k s → r = s
  | 0, _, _, _, _, h => h
  | k + 1, r, s, hr, hs, h =>
    crcShift_inj r s hr hs
      (crcLoop_inj k (crcShift r) (crcShift s) (crcShift_lt r hr) (crcShift_lt s hs) h)

theorem xor_lt_256 (a b : Nat) (ha : a < 256) (hb : b < 256) : a ^^^ b < 256 :=
  Nat.xor_lt_two_pow (n := 8) ha hb

theorem update_crc_inj_left (a a' b : Nat) (ha : a < 256) (ha' : a' < 256) (hb : b < 256)
    (h : update_crc a b = update_crc a' b) : a = a' := by
  unfold update_crc at h
  have h1 := crcLoop_inj 8 _ _ (Nat.mod_lt _ (by decide)) (Nat.mod_lt _ (by decide)) h
  rw [Nat.mod_eq_of_lt (xor_lt_256 a b ha hb), Nat.mod_eq_of_lt (xor_lt_256 a' b ha' hb)] at h1
  exact Nat.xor_right_injective.eq_iff.mp (by rw [Nat.xor_comm b a, Nat.xor_comm b a']; exact h1)

theorem update_crc_inj_right (a b b' : Nat) (ha : a < 256) (hb : b < 256) (hb' : b' < 256)
    (h : update_crc a b = update_crc a b') : b = b' := by
  unfold update_crc at h
  have h1 := crcLoop_inj 8 _ _ (Nat.mod_lt _ (by decide)) (Nat.mod_lt _ (by decide)) h
  rw [Nat.mod_eq_of_lt (xor_lt_256 a b ha hb), Nat.mod_eq_of_lt (xor_lt_256 a b' ha hb')] at h1
  exact Nat.xor_right_injective.eq_iff.mp h1

theorem foldl_update_crc_lt (ps : List Nat) (acc : Nat) (h : acc < 256) :
    ps.foldl update_crc acc < 256 := by
  induction ps generalizing acc with
  | nil => exact h
  | cons x xs ih => exact ih _ (update_crc_lt acc x)

theorem foldl_update_crc_ne (ps : List Nat) (hps : ∀ x ∈ ps, x < 256) :
    ∀ (acc acc' : Nat), acc < 256 → acc' < 256 → acc ≠ acc' →
      ps.foldl update_crc acc ≠ ps.foldl update_crc acc' := by
  induction ps with
  | nil => intro acc acc' _ _ h; exact h
  | cons x xs ih =>
    intro acc acc' ha ha' h
    have hx : x < 256 := hps x (List.mem_cons_self _ _)
    exact ih (fun y hy => hps y (List.mem_cons_of_mem _ hy)) _ _ (update_crc_lt acc x)
      (update_crc_lt acc' x) (fun e => h (update_crc_inj_left acc acc' x ha ha' hx e))

/-- Two byte sequences that differ in exactly one byte have different checksums. -/
theorem crcOf_replace_ne (pre post : List Nat) (b b' : Nat) (hb : b < 256) (hb' : b' < 256)
    (hpost : ∀ x ∈ post, x < 256) (hne : b ≠ b') :
    crcOf (pre ++ b :: post) ≠ crcOf (pre ++ b' :: post) := by
  unfold crcOf
  rw [List.foldl_append, List.foldl_append, List.foldl_cons, List.foldl_cons]
  have hacc : pre.foldl update_crc 0 < 256 := foldl_update_crc_lt pre 0 (by decide)
  exact foldl_update_crc_ne post hpost _ _ (update_crc_lt _ _) (update_crc_lt _ _)
    (fun e => hne (update_crc_inj_right _ b b' hacc hb hb' e))

/-- A frame whose checksum byte is not the checksum of its body is rejected:
every call returns false and the caller's message is unchanged. -/
theorem parseBytes_frame_reject (i : Nat) (ps : List Nat) (c : Nat) (p : Parser) (msg : Message)
    (hs : p.parse_state = .IDLE) (hcrc : p.msg_buffer.crc = 0) (hlen : ps.length ≤ maxPayloadSize)
    (hc : c ≠ crcOf (START_BYTE :: i :: ps.length :: ps)) :
    parseBytes (START_BYTE :: i :: ps.length :: ps ++ [c]) p msg
      = some (List.replicate (3 + ps.length + 1) false, afterFrame p i ps, msg) := by
  have h := parseBytes_frame i ps c p msg hs hlen
  rw [afterBody_crc p i ps hcrc] at h
  rw [h, if_neg hc]
  simp [hc, List.replicate_succ']

/-- Replacing the ID byte, a payload byte or the checksum byte of a frame by a
different byte makes the parser reject the frame. -/
theorem rawFrame_replace_rejected (i : Nat) (ps : List Nat) (j b' : Nat) (p : Parser)
    (msg : Message) (hs : p.parse_state = .IDLE) (hcrc : p.msg_buffer.crc = 0)
    (hi : i < 256) (hps : ∀ x ∈ ps, x < 256) (hlen : ps.length ≤ maxPayloadSize)
    (hb' : b' < 256) (hj : j = 1 ∨ (3 ≤ j ∧ j ≤ 3 + ps.length))
    (hne : (rawFrame i ps).getD j 0 ≠ b') :
    ∃ q, parseBytes ((rawFrame i ps).set j b') p msg
      = some (List.replicate (3 + ps.length + 1) false, q, msg) := by
  have hL : ps.length < 256 := by rw [maxPayloadSize_eq] at hlen; omega
  rcases hj with rfl | ⟨h3, hj⟩
  · -- the ID byte
    have hib : i ≠ b' := by simpa [rawFrame] using hne
    have hc : crcOf (START_BYTE :: i :: ps.length :: ps)
        ≠ crcOf (START_BYTE :: b' :: ps.length :: ps) :=
      crcOf_replace_ne [START_BYTE] (ps.length :: ps) i b' hi hb'
        (by
          intro x hx
          rcases List.mem_cons.mp hx with rfl | hx
          · exact hL
          · exact hps x hx) hib
    refine ⟨afterFrame p b' ps, ?_⟩
    simp only [rawFrame, List.cons_append, List.set_cons_succ, List.set_cons_zero]
    exact parseBytes_frame_reject b' ps _ p msg hs hcrc hlen hc
  · obtain ⟨t, rfl⟩ : ∃ t, j = t + 3 := ⟨j - 3, by omega⟩
    by_cases ht : t < ps.length
    · -- a payload byte
      obtain ⟨pre, b, post, rfl, rfl⟩ :
          ∃ pre b post, ps = pre ++ b :: post ∧ pre.length = t :=
        ⟨ps.take t, ps[t], ps.drop (t + 1),
          by rw [← List.drop_eq_getElem_cons ht, List.take_append_drop],
          by rw [List.length_take]; omega⟩
      have hbt : b ≠ b' := by
        have : (rawFrame i (pre ++ b :: post)).getD (pre.length + 3) 0 = b := by
          simp only [rawFrame, List.cons_append, List.append_assoc, List.getD_eq_getElem?_getD,
            List.getElem?_cons_succ]
          rw [List.getElem?_append_right (Nat.le_refl _)]
          simp
        rwa [this] at hne
      have hlen2 : (pre ++ b' :: post).length = (pre ++ b :: post).length := by simp
      have hc : crcOf (START_BYTE :: i :: (pre ++ b :: post).length :: (pre ++ b :: post))
          ≠ crcOf (START_BYTE :: i :: (pre ++ b' :: post).length :: (pre ++ b' :: post)) := by
        rw [hlen2]
        exact crcOf_replace_ne (START_BYTE :: i :: (pre ++ b :: post).length :: pre) post
          b b' (hps b (by simp)) hb'
          (fun x hx => hps x (by simp [hx])) hbt
      refine ⟨afterFrame p i (pre ++ b' :: post), ?_⟩
      have hframe : (rawFrame i (pre ++ b :: post)).set (pre.length + 3) b'
          = START_BYTE :: i :: (pre ++ b' :: post).length :: (pre ++ b' :: post)
              ++ [crcOf (START_BYTE :: i :: (pre ++ b :: post).length :: (pre ++ b :: post))] := by
        simp [rawFrame, List.set_append]
      rw [hframe]
      have := parseBytes_frame_reject i (pre ++ b' :: post) _ p msg hs hcrc
        (by rw [hlen2]; exact hlen) hc
      rw [hlen2] at this ⊢
      exact this
    · -- the checksum byte
      have htl : t = ps.length := by omega
      subst htl
      have hcb : crcOf (START_BYTE :: i :: ps.length :: ps) ≠ b' := by
        have : (rawFrame i ps).getD (ps.length + 3) 0
            = crcOf (START_BYTE :: i :: ps.length :: ps) := by
          simp [rawFrame, List.getD_eq_getElem?_getD, List.getElem?_append_right]
        rwa [this] at hne
      refine ⟨afterFrame p i ps, ?_⟩
      have hframe : (rawFrame i ps).set (ps.length + 3) b'
          = START_BYTE :: i :: ps.length :: ps ++ [b'] := by
        simp [rawFrame, List.set_append]
      rw [hframe]
      exact parseBytes_frame_reject i ps b' p msg hs hcrc hlen (Ne.symm hcb)

theorem parseByte_idle_false (b : Nat) (p : Parser) (msg : Message)
    (hs : p.parse_state = .IDLE) : ∃ q, parseByte b p msg = some (false, q, msg) := by
  by_cases hb : b = START_BYTE
  · exact ⟨_, by simp [parseByte, hs, hb]; rfl⟩
  · exact ⟨p, parseByte_idle_ne b p msg hs hb⟩

/-- In phase IDLE, noise without the start byte followed by one more byte: every
call returns false and the caller's message is unchanged. -/
theorem parseBytes_noise_then_byte (noise : List Nat) (c : Nat) (p : Parser) (msg : Message)
    (hs : p.parse_state = .IDLE) (hn : ∀ b ∈ noise, b ≠ START_BYTE) :
    ∃ q, parseBytes (noise ++ [c]) p msg
      = some (List.replicate (noise.length + 1) false, q, msg) := by
  obtain ⟨q, hq⟩ := parseByte_idle_false c p msg hs
  refine ⟨q, ?_⟩
  rw [parseBytes_append_some noise [c] _ _ _ _ _ _ _ _ (parseBytes_noise noise p msg hs hn)
    (parseBytes_cons_some c [] _ _ _ _ _ _ _ _ hq (parseBytes_nil _ _))]
  simp [List.replicate_succ']

/-- A frame whose start byte is replaced, when no later byte but the checksum
can be a start byte: every call returns false. -/
theorem start_replaced_rejected (i L : Nat) (ps : List Nat) (c b' : Nat) (p : Parser)
    (msg : Message) (hs : p.parse_state = .IDLE) (hb' : b' ≠ START_BYTE)
    (hi : i ≠ START_BYTE) (hL : L ≠ START_BYTE) (hps : ∀ x ∈ ps, x ≠ START_BYTE) :
    ∃ q, parseBytes (b' :: i :: L :: ps ++ [c]) p msg
      = some (List.replicate (3 + ps.length + 1) false, q, msg) := by
  have hn : ∀ x ∈ b' :: i :: L :: ps, x ≠ START_BYTE := by
    intro x hx
    simp only [List.mem_cons] at hx
    rcases hx with rfl | rfl | rfl | hx
    · exact hb'
    · exact hi
    · exact hL
    · exact hps x hx
  obtain ⟨q, hq⟩ := parseBytes_noise_then_byte (b' :: i :: L :: ps) c p msg hs hn
  refine ⟨q, ?_⟩
  have e : (b' :: i :: L :: ps).length + 1 = 3 + ps.length + 1 := by simp; omega
  rw [← e]
  exact hq

/-- A frame whose length byte is replaced by a smaller value, when no payload
byte is a start byte: a payload byte is taken as checksum, the rest of the frame
is skipped, and the final call returns false. -/
theorem length_lowered_final_false (i L : Nat) (ps : List Nat) (c : Nat) (p : Parser)
    (msg : Message) (hs : p.parse_state = .IDLE) (hL : L < ps.length)
    (hlen : ps.length ≤ maxPayloadSize) (hps : ∀ x ∈ ps, x ≠ START_BYTE) :
    ∃ rs q m, parseBytes (START_BYTE :: i :: L :: ps ++ [c]) p msg
      = some (rs ++ [false], q, m) ∧ rs.length = 3 + ps.length := by
  obtain ⟨ps1, x, ps2, rfl, rfl⟩ : ∃ ps1 x ps2, ps = ps1 ++ x :: ps2 ∧ ps1.length = L :=
    ⟨ps.take L, ps[L], ps.drop (L + 1),
      by rw [← List.drop_eq_getElem_cons hL, List.take_append_drop],
      by rw [List.length_take]; omega⟩
  have hfr := parseBytes_frame i ps1 x p msg hs (by simp at hlen; omega)
  obtain ⟨q, hq⟩ := parseBytes_noise_then_byte ps2 c (afterFrame p i ps1)
    (if x = (afterBody p i ps1).msg_buffer.crc then (afterBody p i ps1).msg_buffer else msg)
    rfl (fun y hy => hps y (by simp [hy]))
  have hall := parseBytes_append_some _ _ _ _ _ _ _ _ _ _ hfr hq
  have e : START_BYTE :: i :: ps1.length :: (ps1 ++ x :: ps2) ++ [c]
      = (START_BYTE :: i :: ps1.length :: ps1 ++ [x]) ++ (ps2 ++ [c]) := by simp
  have hl : List.replicate (3 + ps1.length) false
        ++ [decide (x = (afterBody p i ps1).msg_buffer.crc)]
        ++ List.replicate (ps2.length + 1) false
      = (List.replicate (3 + ps1.length) false
        ++ [decide (x = (afterBody p i ps1).msg_buffer.crc)]
        ++ List.replicate ps2.length false) ++ [false] := by
    simp [List.replicate_succ']
  rw [← e, hl] at hall
  exact ⟨_, _, _, hall, by simp; omega⟩

theorem le32_lt (n : Nat) : ∀ x ∈ le32 n, x < 256 := by
  intro x hx
  simp only [le32, List.mem_cons, List.mem_singleton, List.not_mem_nil, or_false] at hx
  rcases hx with rfl | rfl | rfl | rfl <;> exact Nat.mod_lt _ (by decide)

theorem AnyMessage.objectBytes_lt (v : AnyMessage) : ∀ x ∈ v.objectBytes, x < 256 := by
  intro x hx
  cases v with
  | heartbeat m => exact le32_lt _ x hx
  | request m =>
    rcases List.mem_append.mp hx with h | h <;> exact le32_lt _ x h
  | response m =>
    rcases List.mem_append.mp hx with h | h
    · rcases List.mem_append.mp h with h | h <;> exact le32_lt _ x h
    · exact le32_lt _ x h

theorem AnyMessage.objectBytes_length (v : AnyMessage) : v.objectBytes.length = v.size := by
  cases v <;> rfl

theorem AnyMessage.size_cases (v : AnyMessage) : v.size = 4 ∨ v.size = 8 ∨ v.size = 12 := by
  cases v
  · exact Or.inl rfl
  · exact Or.inr (Or.inl rfl)
  · exact Or.inr (Or.inr rfl)

theorem AnyMessage.size_le (v : AnyMessage) : v.size ≤ maxPayloadSize := by
  rw [maxPayloadSize_eq]
  rcases v.size_cases with h | h | h <;> omega

theorem AnyMessage.getID_le (v : AnyMessage) : v.getID.toByte ≤ 2 := by
  cases v <;> simp [AnyMessage.getID, SerialMessage.getID, MessageID.toByte]

/-- The buffer written by `sendToBuffer` starts with the frame of the value. -/
theorem AnyMessage.sendToBuffer_rawFrame (v : AnyMessage) (buffer : List Nat)
    (hbuf : 3 + v.size + 1 ≤ buffer.length) :
    v.sendToBuffer buffer
      = some (3 + v.size + 1,
          rawFrame v.getID.toByte v.objectBytes ++ buffer.drop (3 + v.size + 1)) := by
  cases v with
  | heartbeat m => exact protocol.sendToBuffer_eq m buffer rfl hbuf
  | request m => exact protocol.sendToBuffer_eq m buffer rfl hbuf
  | response m => exact protocol.sendToBuffer_eq m buffer rfl hbuf

theorem rawFrame_length (i : Nat) (ps : List Nat) : (rawFrame i ps).length = 3 + ps.length + 1 := by
  simp [rawFrame]; omega

theorem AnyMessage.take_sendToBuffer (v : AnyMessage) (buffer out : List Nat) (n : Nat)
    (hbuf : 3 + v.size + 1 ≤ buffer.length) (h : v.sendToBuffer buffer = some (n, out)) :
    n = 3 + v.size + 1 ∧ out.take n = rawFrame v.getID.toByte v.objectBytes := by
  rw [v.sendToBuffer_rawFrame buffer hbuf] at h
  injection h with h
  injection h with h1 h2
  subst h1 h2
  refine ⟨rfl, ?_⟩
  have hl := rawFrame_length v.getID.toByte v.objectBytes
  rw [v.objectBytes_length] at hl
  rw [← hl]
  simp

/-- A whole frame fed to a fresh parser: the last call returns true exactly when
the checksum byte is right, and then delivers the header and payload as fed. -/
theorem parseBytes_frame_fresh (i : Nat) (ps : List Nat) (c : Nat) (p : Parser) (msg : Message)
    (hp : p.Fresh) (hlen : ps.length ≤ maxPayloadSize) :
    ∃ (r : Bool) (m : Message),
      parseBytes (START_BYTE :: i :: ps.length :: ps ++ [c]) p msg
        = some (List.replicate (3 + ps.length) false ++ [r], afterFrame p i ps, m)
      ∧ (r = true ↔ c = crcOf (START_BYTE :: i :: ps.length :: ps))
      ∧ (r = true → m = { start_byte := 0xA5, id := i, len := ps.length,
                          buffer := ps ++ p.msg_buffer.buffer.drop ps.length, crc := c })
      ∧ (r = false → m = msg) := by
  obtain ⟨hs, _, hsb, hcrc, hblen⟩ := hp
  have hfr := parseBytes_frame i ps c p msg hs hlen
  have hc := afterBody_crc p i ps hcrc
  rw [hc] at hfr
  refine ⟨_, _, hfr, by simp, ?_, ?_⟩
  · intro hr
    have hcc : c = crcOf (START_BYTE :: i :: ps.length :: ps) := by simpa using hr
    rw [if_pos hcc]
    simp only [afterBody]
    rw [storeBytes_zero _ _ (by rw [hblen]; exact hlen), hsb, hcrc, hcc]
    rfl
  · intro hr
    have hcc : ¬ c = crcOf (START_BYTE :: i :: ps.length :: ps) := by simpa using hr
    rw [if_neg hcc]

/-! ## Lemmas on invariants, the registry and streams -/

/-- A call of `parseByte` that returns false leaves the caller's message as it was. -/
theorem parseByte_false_msg (b : Nat) (p q : Parser) (msg m : Message) (r : Bool)
    (h : parseByte b p msg = some (r, q, m)) (hr : r = false) : m = msg := by
  subst hr
  obtain ⟨st, n, mb⟩ := p
  cases st
  · by_cases hb : b = START_BYTE
    · simp [parseByte, hb] at h; exact h.2.symm
    · simp [parseByte, hb] at h; exact h.2.symm
  · simp [parseByte] at h; exact h.2.symm
  · by_cases hb : 0 < b
    · simp [parseByte, hb] at h; exact h.2.symm
    · simp [parseByte, hb] at h; exact h.2.symm
  · by_cases hk : n < maxPayloadSize
    · by_cases hl : mb.len ≤ n + 1
      · simp [parseByte, hk, hl] at h; exact h.2.symm
      · simp [parseByte, hk, hl] at h; exact h.2.symm
    · simp [parseByte, hk] at h
  · by_cases hb : b = mb.crc
    · simp [parseByte, hb] at h
    · simp [parseByte, hb] at h; exact h.2.symm

theorem maxSizeOf_mem : ∀ (s : Nat) (ss : List Nat), maxSizeOf s ss ∈ s :: ss
  | s, [] => by simp [maxSizeOf]
  | s1, s2 :: ss => by
    have ih := maxSizeOf_mem s2 ss
    rw [maxSizeOf]
    split
    · exact List.mem_cons_self _ _
    · exact List.mem_cons_of_mem _ ih

theorem maxSizeOf_ge : ∀ (s : Nat) (ss : List Nat), ∀ x ∈ s :: ss, x ≤ maxSizeOf s ss
  | s, [] => by
    intro x hx
    simp only [List.mem_singleton] at hx
    subst hx
    simp [maxSizeOf]
  | s1, s2 :: ss => by
    intro x hx
    have ih := maxSizeOf_ge s2 ss
    rw [maxSizeOf]
    rcases List.mem_cons.mp hx with rfl | hx
    · split <;> omega
    · have := ih x hx
      split <;> omega

theorem readLe32_drop (buffer : List Nat) (n off : Nat) :
    readLe32 (buffer.drop n) off = readLe32 buffer (n + off) := by
  simp [readLe32, List.getD_eq_getElem?_getD, List.getElem?_drop, Nat.add_assoc]

theorem fresh_resting (p : Parser) (h : p.Fresh) : p.Resting :=
  ⟨h.1, h.2.2.1, h.2.2.2.1, h.2.2.2.2⟩

theorem parseLog_cons_some (b : Nat) (bs : List Nat) (p p1 p2 : Parser) (msg m1 : Message)
    (r : Bool) (log : List (Bool × Message)) (h1 : parseByte b p msg = some (r, p1, m1))
    (h2 : parseLog bs p1 m1 = some (log, p2)) :
    parseLog (b :: bs) p msg = some ((r, m1) :: log, p2) := by
  rw [parseLog, h1]
  simp [h2]

theorem parseBytes_cons_inv (b : Nat) (bs : List Nat) (p q : Parser) (msg m : Message)
    (rs : List Bool) (h : parseBytes (b :: bs) p msg = some (rs, q, m)) :
    ∃ r p1 m1 rs1, parseByte b p msg = some (r, p1, m1)
      ∧ parseBytes bs p1 m1 = some (rs1, q, m) ∧ rs = r :: rs1 := by
  rw [parseBytes_cons] at h
  revert h
  cases hb : parseByte b p msg with
  | none => intro h; simp at h
  | some r1 =>
    obtain ⟨r, p1, m1⟩ := r1
    show Option.map _ (parseBytes bs p1 m1) = _ → _
    cases hrest : parseBytes bs p1 m1 with
    | none => intro h; simp at h
    | some r2 =>
      obtain ⟨rs1, q2, m2⟩ := r2
      intro h
      simp only [Option.map_some', Option.some.injEq, Prod.mk.injEq] at h
      obtain ⟨h1, h2, h3⟩ := h
      subst h1 h2 h3
      exact ⟨r, p1, m1, rs1, rfl, hrest, rfl⟩

/-- A run whose calls all return false logs the unchanged caller's message. -/
theorem parseLog_of_all_false (bs : List Nat) : ∀ (p q : Parser) (msg m : Message) (n : Nat),
    parseBytes bs p msg = some (List.replicate n false, q, m) →
    parseLog bs p msg = some (List.replicate n (false, msg), q) ∧ m = msg := by
  induction bs with
  | nil =>
    intro p q msg m n h
    simp only [parseBytes, Option.some.injEq, Prod.mk.injEq] at h
    obtain ⟨h1, h2, h3⟩ := h
    have hn : n = 0 := by
      cases n with
      | zero => rfl
      | succ k => simp [List.replicate_succ] at h1
    subst hn h2 h3
    exact ⟨rfl, rfl⟩
  | cons b bs ih =>
    intro p q msg m n h
    obtain ⟨r, p1, m1, rs1, hb, hrest, hrs⟩ := parseBytes_cons_inv b bs p q msg m _ h
    cases n with
    | zero => simp at hrs
    | succ k =>
      simp only [List.replicate_succ, List.cons.injEq] at hrs
      obtain ⟨hr, hrs⟩ := hrs
      subst hr hrs
      have hm := parseByte_false_msg b p p1 msg m1 false hb rfl
      subst hm
      obtain ⟨hl, hmm⟩ := ih p1 q m1 m k hrest
      exact ⟨by rw [parseLog_cons_some b bs p p1 q m1 m1 false _ hb hl,
        List.replicate_succ], hmm⟩

theorem parseLog_append_some (xs ys : List Nat) : ∀ (p p1 p2 : Parser) (msg m1 : Message)
    (l1 l2 : List (Bool × Message)),
    parseLog xs p msg = some (l1, p1) → (l1.getLast?.map (fun e => e.2)).getD msg = m1 →
    parseLog ys p1 m1 = some (l2, p2) →
    parseLog (xs ++ ys) p msg = some (l1 ++ l2, p2) := by
  induction xs with
  | nil =>
    intro p p1 p2 msg m1 l1 l2 h1 hm h2
    simp only [parseLog, Option.some.injEq, Prod.mk.injEq] at h1
    obtain ⟨rfl, rfl⟩ := h1
    simp only [List.getLast?_nil, Option.map_none', Option.getD_none] at hm
    subst hm
    simpa using h2
  | cons x xs ih =>
    intro p p1 p2 msg m1 l1 l2 h1 hm h2
    rw [parseLog] at h1
    cases hb : parseByte x p msg with
    | none => simp [hb] at h1
    | some r1 =>
      obtain ⟨r, q1, n1⟩ := r1
      cases hrest : parseLog xs q1 n1 with
      | none => simp [hb, hrest] at h1
      | some r2 =>
        obtain ⟨lg, q2⟩ := r2
        simp only [hb, hrest, Option.some.injEq, Prod.mk.injEq] at h1
        obtain ⟨rfl, rfl⟩ := h1
        have hm2 : (lg.getLast?.map (fun e => e.2)).getD n1 = m1 := by
          cases lg with
          | nil => simpa using hm
          | cons e es => simpa [List.getLast?_cons_cons] using hm
        have := ih q1 q2 p2 n1 m1 lg l2 hrest hm2 h2
        rw [List.cons_append, parseLog_cons_some x (xs ++ ys) p q1 p2 msg n1 r _ hb this]
        rfl

theorem getLast_replicate_msg (n : Nat) (msg : Message) :
    ((List.replicate n (false, msg)).getLast?.map (fun e => e.2)).getD msg = msg := by
  cases n with
  | zero => rfl
  | succ k => simp [List.getLast?_replicate]

/-- The message a parser at rest delivers for the frame with ID byte `i` and
payload `ps`. -/
theorem parseLog_rawFrame (i : Nat) (ps : List Nat) (p : Parser) (msg : Message)
    (hp : p.Resting) (hlen : ps.length ≤ maxPayloadSize) :
    parseLog (rawFrame i ps) p msg
      = some (List.replicate (3 + ps.length) (false, msg)
            ++ [(true, { start_byte := 0xA5, id := i, len := ps.length,
                         buffer := ps ++ p.msg_buffer.buffer.drop ps.length,
                         crc := crcOf (START_BYTE :: i :: ps.length :: ps) })],
          afterFrame p i ps) := by
  obtain ⟨hs, hsb, hcrc, hblen⟩ := hp
  have hbody := parseBytes_body i ps p msg hs hlen
  obtain ⟨hlog, _⟩ := parseLog_of_all_false _ _ _ _ _ _ hbody
  have hc := afterBody_crc p i ps hcrc
  have hlast := parseByte_got_payload (crcOf (START_BYTE :: i :: ps.length :: ps))
    (afterBody p i ps).payload_bytes_received (afterBody p i ps).msg_buffer msg
  rw [hc] at hlast
  simp only [decide_True, if_true] at hlast
  have hl1 : parseLog [crcOf (START_BYTE :: i :: ps.length :: ps)] (afterBody p i ps) msg
      = some ([(true, (afterBody p i ps).msg_buffer)], afterFrame p i ps) :=
    parseLog_cons_some _ [] _ _ _ _ _ _ [] hlast rfl
  have hall := parseLog_append_some _ _ _ _ _ _ _ _ _ hlog (getLast_replicate_msg _ msg) hl1
  have hm : (afterBody p i ps).msg_buffer
      = { start_byte := 0xA5, id := i, len := ps.length,
          buffer := ps ++ p.msg_buffer.buffer.drop ps.length,
          crc := crcOf (START_BYTE :: i :: ps.length :: ps) } := by
    simp only [afterBody]
    rw [storeBytes_zero _ _ (by rw [hblen]; exact hlen), hsb, hcrc]
    rfl
  rw [hm] at hall
  simpa [rawFrame] using hall

theorem afterFrame_resting (p : Parser) (i : Nat) (ps : List Nat) (hp : p.Resting)
    (hlen : ps.length ≤ maxPayloadSize) : (afterFrame p i ps).Resting := by
  obtain ⟨hs, hsb, hcrc, hblen⟩ := hp
  refine ⟨rfl, hsb, rfl, ?_⟩
  simp only [afterFrame]
  rw [storeBytes_zero _ _ (by rw [hblen]; exact hlen)]
  simp only [List.length_append, List.length_drop]
  omega

theorem getBytes_of_sendToBuffer {T : Type} [SerialMessage T] (m : T) (buffer out : List Nat)
    (n : Nat) (h : sendToBuffer m buffer = some (n, out)) :
    protocol.getBytes m buffer = some (out.take n) := by
  unfold protocol.getBytes
  rw [h]

theorem AnyMessage.getBytes_eq (v : AnyMessage) : v.getBytes = some v.frame := by
  have h16 : 3 + v.size + 1 ≤ (List.replicate sizeofMessage 0).length := by
    have := v.size_le
    simp [sizeofMessage]
    omega
  have hs := v.sendToBuffer_rawFrame (List.replicate sizeofMessage 0) h16
  have ht := (v.take_sendToBuffer _ _ _ h16 hs).2
  cases v with
  | heartbeat m =>
    have hs2 : protocol.sendToBuffer m (List.replicate sizeofMessage 0)
        = some (3 + (AnyMessage.heartbeat m).size + 1,
            rawFrame (AnyMessage.heartbeat m).getID.toByte (AnyMessage.heartbeat m).objectBytes
              ++ List.drop (3 + (AnyMessage.heartbeat m).size + 1)
                  (List.replicate sizeofMessage 0)) := hs
    have hg := getBytes_of_sendToBuffer m (List.replicate sizeofMessage 0) _ _ hs2
    show protocol.getBytes m (List.replicate sizeofMessage 0) = _
    rw [hg, ht]
    rfl
  | request m =>
    have hs2 : protocol.sendToBuffer m (List.replicate sizeofMessage 0)
        = some (3 + (AnyMessage.request m).size + 1,
            rawFrame (AnyMessage.request m).getID.toByte (AnyMessage.request m).objectBytes
              ++ List.drop (3 + (AnyMessage.request m).size + 1)
                  (List.replicate sizeofMessage 0)) := hs
    have hg := getBytes_of_sendToBuffer m (List.replicate sizeofMessage 0) _ _ hs2
    show protocol.getBytes m (List.replicate sizeofMessage 0) = _
    rw [hg, ht]
    rfl
  | response m =>
    have hs2 : protocol.sendToBuffer m (List.replicate sizeofMessage 0)
        = some (3 + (AnyMessage.response m).size + 1,
            rawFrame (AnyMessage.response m).getID.toByte (AnyMessage.response m).objectBytes
              ++ List.drop (3 + (AnyMessage.response m).size + 1)
                  (List.replicate sizeofMessage 0)) := hs
    have hg := getBytes_of_sendToBuffer m (List.replicate sizeofMessage 0) _ _ hs2
    show protocol.getBytes m (List.replicate sizeofMessage 0) = _
    rw [hg, ht]
    rfl

/-- The log of a run determines the result of `parseBytes`: the same flags, the
same final parser, and the caller's message after the last call. -/
theorem parseBytes_of_parseLog (bs : List Nat) : ∀ (p q : Parser) (msg : Message)
    (log : List (Bool × Message)), parseLog bs p msg = some (log, q) →
    parseBytes bs p msg
      = some (log.map (fun e => e.1), q, (log.getLast?.map (fun e => e.2)).getD msg) := by
  induction bs with
  | nil =>
    intro p q msg log h
    simp only [parseLog, Option.some.injEq, Prod.mk.injEq] at h
    obtain ⟨rfl, rfl⟩ := h
    rfl
  | cons b bs ih =>
    intro p q msg log h
    rw [parseLog] at h
    revert h
    cases hb : parseByte b p msg with
    | none => intro h; simp at h
    | some r1 =>
      obtain ⟨r, p1, m1⟩ := r1
      show (match parseLog bs p1 m1 with
        | none => none
        | some (log, p2) => some ((r, m1) :: log, p2)) = _ → _
      cases hrest : parseLog bs p1 m1 with
      | none => intro h; simp at h
      | some r2 =>
        obtain ⟨lg, q2⟩ := r2
        intro h
        simp only [Option.some.injEq, Prod.mk.injEq] at h
        obtain ⟨rfl, rfl⟩ := h
        rw [parseBytes_cons_some b bs p p1 q2 msg m1 _ r _ hb (ih p1 q2 m1 lg hrest)]
        cases lg with
        | nil => rfl
        | cons e es =>
          simp only [List.map_cons, List.getLast?_cons_cons]
          rw [List.getLast?_eq_getLast _ (List.cons_ne_nil e es)]
          rfl

theorem delivered_append (l1 l2 : List (Bool × Message)) :
    delivered (l1 ++ l2) = delivered l1 ++ delivered l2 := by
  simp [delivered]

theorem delivered_replicate_false (n : Nat) (msg : Message) :
    delivered (List.replicate n (false, msg)) = [] := by
  simp [delivered, List.filter_eq_nil_iff]

/-- Back-to-back frames fed to a parser at rest: each frame delivers the message
of its value on its last byte. -/
theorem parseLog_frames (vs : List AnyMessage) : ∀ (p : Parser) (msg : Message), p.Resting →
    ∃ log q, parseLog (vs.map AnyMessage.frame).flatten p msg = some (log, q)
      ∧ log.map (fun e => e.1)
          = (vs.map (fun v => List.replicate (3 + v.size) false ++ [true])).flatten
      ∧ List.Forall₂
          (fun v m => m.id = v.getID.toByte ∧ m.len = v.size
            ∧ m.buffer.take v.size = v.objectBytes)
          vs (delivered log)
      ∧ q.Resting := by
  induction vs with
  | nil =>
    intro p msg hp
    exact ⟨[], p, rfl, rfl, List.Forall₂.nil, hp⟩
  | cons v vs ih =>
    intro p msg hp
    have hlen : v.objectBytes.length ≤ maxPayloadSize := by
      rw [v.objectBytes_length]; exact v.size_le
    have hfr := parseLog_rawFrame v.getID.toByte v.objectBytes p msg hp hlen
    generalize hM : Message.mk 0xA5 v.getID.toByte v.objectBytes.length
        (v.objectBytes ++ p.msg_buffer.buffer.drop v.objectBytes.length)
        (crcOf (START_BYTE :: v.getID.toByte :: v.objectBytes.length :: v.objectBytes))
        = M at hfr
    obtain ⟨log2, q, h2, hflags, hdel, hq⟩ := ih (afterFrame p v.getID.toByte v.objectBytes) M
      (afterFrame_resting p _ _ hp hlen)
    have hall := parseLog_append_some _ _ _ _ _ _ _ _ _ hfr (by simp) h2
    refine ⟨List.replicate (3 + v.objectBytes.length) (false, msg) ++ [(true, M)] ++ log2, q,
      ?_, ?_, ?_, hq⟩
    · simpa [AnyMessage.frame] using hall
    · simp [hflags, v.objectBytes_length]
    · rw [delivered_append, delivered_append, delivered_replicate_false]
      simp only [delivered, List.filter_cons, List.filter_nil, List.map_cons, List.map_nil,
        if_true, List.nil_append, List.singleton_append]
      refine List.Forall₂.cons ⟨?_, ?_, ?_⟩ hdel
      · rw [← hM]
      · rw [← hM]; exact v.objectBytes_length
      · rw [← hM, ← v.objectBytes_length]
        simp

theorem frames_of_getBytes (vs : List AnyMessage) : ∀ (frames : List (List Nat)),
    vs.map AnyMessage.getBytes = frames.map some → frames = vs.map AnyMessage.frame := by
  induction vs with
  | nil =>
    intro frames h
    cases frames with
    | nil => rfl
    | cons f fs => simp at h
  | cons v vs ih =>
    intro frames h
    cases frames with
    | nil => simp at h
    | cons f fs =>
      simp only [List.map_cons, List.cons.injEq] at h
      obtain ⟨h1, h2⟩ := h
      rw [v.getBytes_eq] at h1
      injection h1 with h1
      rw [List.map_cons, ← ih fs h2, h1]

theorem fresh_inv (p : Parser) (h : p.Fresh) : p.Inv := by
  refine ⟨fun _ => h.2.2.2.1, fun hs => ?_⟩
  rw [h.1] at hs
  exact absurd hs (by decide)

/-- Every call of `parseByte` preserves the invariant. -/
theorem parseByte_inv (b : Nat) (p q : Parser) (msg m : Message) (r : Bool)
    (hi : p.Inv) (h : parseByte b p msg = some (r, q, m)) : q.Inv := by
  obtain ⟨st, n, mb⟩ := p
  obtain ⟨hidle, hlen⟩ := hi
  cases st
  · by_cases hb : b = START_BYTE
    · simp [parseByte, hb] at h
      obtain ⟨_, rfl, _⟩ := h
      exact ⟨fun hs => absurd hs (by simp), fun hs => absurd hs (by simp)⟩
    · simp [parseByte, hb] at h
      obtain ⟨_, rfl, _⟩ := h
      exact ⟨hidle, hlen⟩
  · simp [parseByte] at h
    obtain ⟨_, rfl, _⟩ := h
    exact ⟨fun hs => absurd hs (by simp), fun hs => absurd hs (by simp)⟩
  · by_cases hb : 0 < b
    · simp [parseByte, hb] at h
      obtain ⟨_, rfl, _⟩ := h
      exact ⟨fun hs => absurd hs (by simp), fun _ => ⟨hb, hb⟩⟩
    · simp [parseByte, hb] at h
      obtain ⟨_, rfl, _⟩ := h
      exact ⟨fun hs => absurd hs (by simp), fun hs => absurd hs (by simp)⟩
  · by_cases hk : n < maxPayloadSize
    · by_cases hl : mb.len ≤ n + 1
      · simp [parseByte, hk, hl] at h
        obtain ⟨_, rfl, _⟩ := h
        exact ⟨fun hs => absurd hs (by simp), fun hs => absurd hs (by simp)⟩
      · simp [parseByte, hk, hl] at h
        obtain ⟨_, rfl, _⟩ := h
        refine ⟨fun hs => absurd hs (by simp), fun _ => ?_⟩
        simp only
        omega
    · simp [parseByte, hk] at h
  · by_cases hb : b = mb.crc
    · simp [parseByte, hb] at h
      obtain ⟨_, rfl, _⟩ := h
      exact ⟨fun _ => rfl, fun hs => absurd hs (by simp)⟩
    · simp [parseByte, hb] at h
      obtain ⟨_, rfl, _⟩ := h
      exact ⟨fun _ => rfl, fun hs => absurd hs (by simp)⟩

/-- Every run of `parseBytes` preserves the invariant. -/
theorem parseBytes_inv (bs : List Nat) : ∀ (p q : Parser) (msg m : Message) (rs : List Bool),
    p.Inv → parseBytes bs p msg = some (rs, q, m) → q.Inv := by
  induction bs with
  | nil =>
    intro p q msg m rs hi h
    simp only [parseBytes, Option.some.injEq, Prod.mk.injEq] at h
    obtain ⟨_, rfl, _⟩ := h
    exact hi
  | cons b bs ih =>
    intro p q msg m rs hi h
    obtain ⟨r, p1, m1, rs1, hb, hrest, _⟩ := parseBytes_cons_inv b bs p q msg m rs h
    exact ih p1 q m1 m rs1 (parseByte_inv b p p1 msg m1 r hi hb) hrest

/-- In phase GOT_LENGTH, the payload bytes up to the declared length: every call
returns false and the last one moves to phase GOT_PAYLOAD. -/
theorem parseBytes_payload_complete (ps : List Nat) (p : Parser) (msg : Message)
    (hs : p.parse_state = .GOT_LENGTH) (hk : p.payload_bytes_received < p.msg_buffer.len)
    (hlen : p.payload_bytes_received + ps.length = p.msg_buffer.len)
    (hmax : p.msg_buffer.len ≤ maxPayloadSize) :
    ∃ q, parseBytes ps p msg = some (List.replicate ps.length false, q, msg)
      ∧ q.parse_state = .GOT_PAYLOAD ∧ q.payload_bytes_received = p.msg_buffer.len
      ∧ q.msg_buffer.len = p.msg_buffer.len := by
  obtain ⟨st, k, mb⟩ := p
  obtain ⟨sb, i, len, buffer, crc⟩ := mb
  simp only at hs hk hlen hmax
  subst hs
  rcases List.eq_nil_or_concat ps with rfl | ⟨init, last, rfl⟩
  · simp at hlen; omega
  · rw [List.concat_eq_append] at hlen ⊢
    have hl : (init ++ [last]).length = init.length + 1 := by simp
    rw [hl] at hlen ⊢
    have hp := parseBytes_payload_partial init k buffer crc sb i len msg (by omega) (by omega)
    have hlast := parseByte_got_length last (k + init.length)
      { start_byte := sb, id := i, len := len, buffer := storeBytes buffer k init,
        crc := init.foldl update_crc crc } msg (by omega)
    have hle : len ≤ k + init.length + 1 := by omega
    simp only [hle, if_true] at hlast
    have hall := parseBytes_append_some init [last] _ _ _ _ _ _ _ _ hp
      (parseBytes_cons_some last [] _ _ _ _ _ _ _ _ hlast (parseBytes_nil _ _))
    have hr : List.replicate init.length false ++ [false]
        = List.replicate (init.length + 1) false := by
      simp [List.replicate_succ']
    rw [hr] at hall
    exact ⟨_, hall, rfl, by simp only; omega, rfl⟩

theorem testBit_ge_8 (x i : Nat) (hx : x < 256) (hi : 8 ≤ i) : x.testBit i = false := by
  apply Nat.testBit_lt_two_pow
  calc x < 256 := hx
    _ = 2 ^ 8 := rfl
    _ ≤ 2 ^ i := Nat.pow_le_pow_right (by decide) hi

/-- One shift of the register is linear over XOR. -/
theorem crcShift_xor (x y : Nat) (hx : x < 256) (hy : y < 256) :
    crcShift (x ^^^ y) = crcShift x ^^^ crcShift y := by
  have hxy := xor_lt_256 x y hx hy
  apply Nat.eq_of_testBit_eq
  intro i
  by_cases hi : i < 8
  · rw [Nat.testBit_xor, crcShift_testBit _ hxy i hi, crcShift_testBit x hx i hi,
      crcShift_testBit y hy i hi, Nat.testBit_xor, Nat.testBit_xor]
    cases decide (0 < i) <;> cases decide (i < 3) <;> cases x.testBit (i - 1)
      <;> cases y.testBit (i - 1) <;> cases x.testBit 7 <;> cases y.testBit 7 <;> rfl
  · have h8 : 8 ≤ i := by omega
    rw [Nat.testBit_xor, testBit_ge_8 _ i (crcShift_lt _ hxy) h8,
      testBit_ge_8 _ i (crcShift_lt x hx) h8, testBit_ge_8 _ i (crcShift_lt y hy) h8]
    rfl

theorem crcLoop_xor : ∀ (k x y : Nat), x < 256 → y < 256 →
    crcLoop k (x ^^^ y) = crcLoop k x ^^^ crcLoop k y
  | 0, _, _, _, _ => rfl
  | k + 1, x, y, hx, hy => by
    rw [crcLoop, crcLoop, crcLoop, crcShift_xor x y hx hy]
    exact crcLoop_xor k _ _ (crcShift_lt x hx) (crcShift_lt y hy)

theorem update_crc_xor (a b c d : Nat) (ha : a < 256) (hb : b < 256) (hc : c < 256)
    (hd : d < 256) : update_crc (a ^^^ c) (b ^^^ d) = update_crc a b ^^^ update_crc c d := by
  have hab := xor_lt_256 a b ha hb
  have hcd := xor_lt_256 c d hc hd
  have e : (a ^^^ c) ^^^ (b ^^^ d) = (a ^^^ b) ^^^ (c ^^^ d) := by
    rw [Nat.xor_assoc, Nat.xor_assoc, ← Nat.xor_assoc c b d, Nat.xor_comm c b, Nat.xor_assoc]
  unfold update_crc
  rw [e, Nat.mod_eq_of_lt (xor_lt_256 _ _ hab hcd), Nat.mod_eq_of_lt hab,
    Nat.mod_eq_of_lt hcd]
  exact crcLoop_xor 8 _ _ hab hcd

set_option maxRecDepth 100000 in
theorem crcShift_crcUnshift : ∀ y < 256, crcShift (crcUnshift y) = y ∧ crcUnshift y < 256 := by
  decide

/-- Every byte is the result of the 8-iteration loop on some byte. -/
theorem crcLoop_surj : ∀ (k y : Nat), y < 256 → ∃ d < 256, crcLoop k d = y
  | 0, y, hy => ⟨y, hy, rfl⟩
  | k + 1, y, hy => by
    obtain ⟨d, hd, hdy⟩ := crcLoop_surj k y hy
    obtain ⟨h1, h2⟩ := crcShift_crcUnshift d hd
    exact ⟨crcUnshift d, h2, by rw [crcLoop, h1, hdy]⟩

theorem update_crc_surj (a y : Nat) (ha : a < 256) (hy : y < 256) :
    ∃ b < 256, update_crc a b = y := by
  obtain ⟨d, hd, hdy⟩ := crcLoop_surj 8 y hy
  refine ⟨a ^^^ d, xor_lt_256 a d ha hd, ?_⟩
  unfold update_crc
  rw [← Nat.xor_assoc, Nat.xor_self, Nat.zero_xor, Nat.mod_eq_of_lt hd]
  exact hdy

theorem sizeofMessage_eq : sizeofMessage = 16 := by decide

/-! ## Lemmas on scanning after a corrupted header -/

/-- A frame with a full-size payload whose length byte is replaced by a larger
value: the checksum byte is due at index `maxPayloadSize` of `payload.buffer`,
outside the array. -/
theorem length_raised_overflows (i L : Nat) (ps : List Nat) (c : Nat) (p : Parser)
    (msg : Message) (hs : p.parse_state = .IDLE) (hL : ps.length < L)
    (hlen : ps.length = maxPayloadSize) :
    parseBytes (START_BYTE :: i :: L :: ps ++ [c]) p msg = none := by
  obtain ⟨st, pbr, mb⟩ := p
  simp only at hs
  subst hs
  have h1 := parseByte_idle_start pbr mb msg
  have h2 := parseByte_got_start i pbr
    { start_byte := mb.start_byte, id := mb.id, len := mb.len, buffer := mb.buffer,
      crc := update_crc mb.crc START_BYTE } msg
  have h3 := parseByte_got_id_pos L pbr
    { start_byte := mb.start_byte, id := i, len := mb.len, buffer := mb.buffer,
      crc := update_crc (update_crc mb.crc START_BYTE) i } msg (by omega)
  have hp := parseBytes_payload_partial ps 0 mb.buffer
    (update_crc (update_crc (update_crc mb.crc START_BYTE) i) L)
    mb.start_byte i L msg (by omega) (by omega)
  have hlast := parseByte_got_length_overflow c (0 + ps.length)
    { start_byte := mb.start_byte, id := i, len := L
      buffer := storeBytes mb.buffer 0 ps
      crc := ps.foldl update_crc
        (update_crc (update_crc (update_crc mb.crc START_BYTE) i) L) }
    msg (by omega)
  have hpl : parseBytes (ps ++ [c])
      { parse_state := .GOT_LENGTH, payload_bytes_received := 0,
        msg_buffer := { start_byte := mb.start_byte, id := i, len := L, buffer := mb.buffer,
                        crc := update_crc (update_crc (update_crc mb.crc START_BYTE) i) L } }
      msg = none := by
    rw [parseBytes_append, hp]
    simp only [Option.bind]
    rw [parseBytes_cons, hlast]
    rfl
  rw [List.cons_append, List.cons_append, List.cons_append, parseBytes_cons, h1]
  simp only [Option.bind]
  rw [parseBytes_cons, h2]
  simp only [Option.bind]
  rw [parseBytes_cons, h3]
  simp only [Option.bind]
  rw [hpl]
  rfl

/-! ## The claims -/

set_option maxRecDepth 100000

/-- C1: round trip. For each registered type (Heartbeat, Request, Response) and
every value `v` whose fields are in the range of their C types, feeding the
bytes written by `sendToBuffer(v)` one at a time to a freshly constructed
parser makes `parseByte` return false on every byte but the last and true on
the last; the delivered message has `id = getID<T>()`, `len = sizeof(T)` and
its accessor for `T` returns `v`. `Request{a=5, b=-3}` gives the 12-byte frame
`A5 01 08 05 00 00 00 FD FF FF FF 23`, which decodes back to `a=5, b=-3`. -/
theorem roundtrip :
    (∀ (v : Heartbeat) (buffer : List Nat) (p : Parser) (msg : Message),
      isUInt32 v.count → 8 ≤ buffer.length → p.Fresh →
      ∃ out q m, sendToBuffer v buffer = some (8, out)
        ∧ parseBytes (out.take 8) p msg = some (List.replicate 7 false ++ [true], q, m)
        ∧ m.id = (SerialMessage.getID Heartbeat).toByte
        ∧ m.len = SerialMessage.size Heartbeat
        ∧ m.getHeartbeat = v)
    ∧ (∀ (v : Request) (buffer : List Nat) (p : Parser) (msg : Message),
      isInt32 v.a ∧ isInt32 v.b → 12 ≤ buffer.length → p.Fresh →
      ∃ out q m, sendToBuffer v buffer = some (12, out)
        ∧ parseBytes (out.take 12) p msg = some (List.replicate 11 false ++ [true], q, m)
        ∧ m.id = (SerialMessage.getID Request).toByte
        ∧ m.len = SerialMessage.size Request
        ∧ m.getRequest = v)
    ∧ (∀ (v : Response) (buffer : List Nat) (p : Parser) (msg : Message),
      isInt32 v.a ∧ isInt32 v.b ∧ isInt32 v.c → 16 ≤ buffer.length → p.Fresh →
      ∃ out q m, sendToBuffer v buffer = some (16, out)
        ∧ parseBytes (out.take 16) p msg = some (List.replicate 15 false ++ [true], q, m)
        ∧ m.id = (SerialMessage.getID Response).toByte
        ∧ m.len = SerialMessage.size Response
        ∧ m.getResponse = v)
    ∧ (sendToBuffer (Request.mk 5 (-3)) (List.replicate 12 0)
          = some (12, [0xA5, 0x01, 0x08, 0x05, 0, 0, 0, 0xFD, 0xFF, 0xFF, 0xFF, 0x23])
        ∧ ∀ msg : Message, ∃ q m,
            parseBytes [0xA5, 0x01, 0x08, 0x05, 0, 0, 0, 0xFD, 0xFF, 0xFF, 0xFF, 0x23]
                Parser.init msg
              = some (List.replicate 11 false ++ [true], q, m)
            ∧ m.id = 1 ∧ m.len = 8 ∧ m.getRequest = Request.mk 5 (-3)) := by
  have hH : ∀ (v : Heartbeat) (buffer : List Nat) (p : Parser) (msg : Message),
      isUInt32 v.count → 8 ≤ buffer.length → p.Fresh →
      ∃ out q m, sendToBuffer v buffer = some (8, out)
        ∧ parseBytes (out.take 8) p msg = some (List.replicate 7 false ++ [true], q, m)
        ∧ m.id = (SerialMessage.getID Heartbeat).toByte
        ∧ m.len = SerialMessage.size Heartbeat
        ∧ m.getHeartbeat = v := by
    intro v buffer p msg hv hbuf hp
    obtain ⟨out, m, h1, h2, _, h4, h5, h6, _⟩ :=
      roundtrip_of v buffer p msg rfl (by decide) hbuf hp
    refine ⟨out, _, m, h1, h2, h4, h5, ?_⟩
    cases v with
    | mk count =>
      simp only [Message.getHeartbeat, h6]
      exact congrArg Heartbeat.mk (readLe32_le32 count _ hv)
  have hQ : ∀ (v : Request) (buffer : List Nat) (p : Parser) (msg : Message),
      isInt32 v.a ∧ isInt32 v.b → 12 ≤ buffer.length → p.Fresh →
      ∃ out q m, sendToBuffer v buffer = some (12, out)
        ∧ parseBytes (out.take 12) p msg = some (List.replicate 11 false ++ [true], q, m)
        ∧ m.id = (SerialMessage.getID Request).toByte
        ∧ m.len = SerialMessage.size Request
        ∧ m.getRequest = v := by
    intro v buffer p msg hv hbuf hp
    obtain ⟨out, m, h1, h2, _, h4, h5, h6, _⟩ :=
      roundtrip_of v buffer p msg rfl (by decide) hbuf hp
    refine ⟨out, _, m, h1, h2, h4, h5, ?_⟩
    cases v with
    | mk a b =>
      have e : SerialMessage.objectBytes (Request.mk a b)
          = le32 (int32Bits a) ++ le32 (int32Bits b) := rfl
      simp only [Message.getRequest, h6, e, List.append_assoc]
      rw [readLe32_le32 _ _ (int32Bits_lt a)]
      have e2 : readLe32 (le32 (int32Bits a) ++ (le32 (int32Bits b)
          ++ List.drop (SerialMessage.size Request) p.msg_buffer.buffer)) 4
          = readLe32 (le32 (int32Bits b)
          ++ List.drop (SerialMessage.size Request) p.msg_buffer.buffer) 0 :=
        readLe32_skip _ _ _ _ _ 0
      rw [e2, readLe32_le32 _ _ (int32Bits_lt b), toInt32_int32Bits a hv.1,
        toInt32_int32Bits b hv.2]
  have hR : ∀ (v : Response) (buffer : List Nat) (p : Parser) (msg : Message),
      isInt32 v.a ∧ isInt32 v.b ∧ isInt32 v.c → 16 ≤ buffer.length → p.Fresh →
      ∃ out q m, sendToBuffer v buffer = some (16, out)
        ∧ parseBytes (out.take 16) p msg = some (List.replicate 15 false ++ [true], q, m)
        ∧ m.id = (SerialMessage.getID Response).toByte
        ∧ m.len = SerialMessage.size Response
        ∧ m.getResponse = v := by
    intro v buffer p msg hv hbuf hp
    obtain ⟨out, m, h1, h2, _, h4, h5, h6, _⟩ :=
      roundtrip_of v buffer p msg rfl (by decide) hbuf hp
    refine ⟨out, _, m, h1, h2, h4, h5, ?_⟩
    cases v with
    | mk a b c =>
      have e : SerialMessage.objectBytes (Response.mk a b c)
          = le32 (int32Bits a) ++ le32 (int32Bits b) ++ le32 (int32Bits c) := rfl
      simp only [Message.getResponse, h6, e, List.append_assoc]
      rw [readLe32_le32 _ _ (int32Bits_lt a)]
      have e2 : ∀ rest, readLe32 (le32 (int32Bits a) ++ rest) 4 = readLe32 rest 0 :=
        fun rest => readLe32_skip _ _ _ _ _ 0
      have e3 : ∀ rest, readLe32 (le32 (int32Bits a) ++ (le32 (int32Bits b) ++ rest)) 8
          = readLe32 rest 0 := fun rest => by
        have h8 := readLe32_skip (int32Bits a % 256) (int32Bits a / 256 % 256)
          (int32Bits a / 65536 % 256) (int32Bits a / 16777216 % 256)
          (le32 (int32Bits b) ++ rest) 4
        exact h8.trans (readLe32_skip _ _ _ _ _ 0)
      rw [e2, e3, readLe32_le32 _ _ (int32Bits_lt b), readLe32_le32 _ _ (int32Bits_lt c),
        toInt32_int32Bits a hv.1, toInt32_int32Bits b hv.2.1, toInt32_int32Bits c hv.2.2]
  refine ⟨hH, hQ, hR, by decide, ?_⟩
  intro msg
  obtain ⟨out, q, m, h1, h2, h3, h4, h5⟩ :=
    hQ (Request.mk 5 (-3)) (List.replicate 12 0) Parser.init msg (by decide) (by decide)
      init_fresh
  have hout : out = [0xA5, 0x01, 0x08, 0x05, 0, 0, 0, 0xFD, 0xFF, 0xFF, 0xFF, 0x23] := by
    have h : sendToBuffer (Request.mk 5 (-3)) (List.replicate 12 0)
        = some (12, [0xA5, 0x01, 0x08, 0x05, 0, 0, 0, 0xFD, 0xFF, 0xFF, 0xFF, 0x23]) := by
      decide
    rw [h] at h1
    injection h1 with h1
    injection h1 with _ h1
    exact h1.symm
  subst hout
  exact ⟨q, m, h2, h3, h4, h5⟩

/-- Witness of C1 at `Heartbeat{count=1}`, `Request{a=5, b=-3}` and
`Response{a=5, b=-3, c=7}`, on the initial parser. -/
theorem roundtrip_witness :
    (isUInt32 (Heartbeat.mk 1).count ∧ 8 ≤ (List.replicate 8 0).length ∧ Parser.init.Fresh
      ∧ ∃ out q m, sendToBuffer (Heartbeat.mk 1) (List.replicate 8 0) = some (8, out)
        ∧ parseBytes (out.take 8) Parser.init Message.init
            = some (List.replicate 7 false ++ [true], q, m)
        ∧ m.id = (SerialMessage.getID Heartbeat).toByte
        ∧ m.len = SerialMessage.size Heartbeat
        ∧ m.getHeartbeat = Heartbeat.mk 1)
    ∧ ((isInt32 (Request.mk 5 (-3)).a ∧ isInt32 (Request.mk 5 (-3)).b)
      ∧ 12 ≤ (List.replicate 12 0).length ∧ Parser.init.Fresh
      ∧ ∃ out q m, sendToBuffer (Request.mk 5 (-3)) (List.replicate 12 0) = some (12, out)
        ∧ parseBytes (out.take 12) Parser.init Message.init
            = some (List.replicate 11 false ++ [true], q, m)
        ∧ m.id = (SerialMessage.getID Request).toByte
        ∧ m.len = SerialMessage.size Request
        ∧ m.getRequest = Request.mk 5 (-3))
    ∧ ((isInt32 (Response.mk 5 (-3) 7).a ∧ isInt32 (Response.mk 5 (-3) 7).b
        ∧ isInt32 (Response.mk 5 (-3) 7).c)
      ∧ 16 ≤ (List.replicate 16 0).length ∧ Parser.init.Fresh
      ∧ ∃ out q m, sendToBuffer (Response.mk 5 (-3) 7) (List.replicate 16 0) = some (16, out)
        ∧ parseBytes (out.take 16) Parser.init Message.init
            = some (List.replicate 15 false ++ [true], q, m)
        ∧ m.id = (SerialMessage.getID Response).toByte
        ∧ m.len = SerialMessage.size Response
        ∧ m.getResponse = Response.mk 5 (-3) 7) :=
  ⟨⟨by decide, by decide, init_fresh,
      roundtrip.1 (Heartbeat.mk 1) (List.replicate 8 0) Parser.init Message.init
        (by decide) (by decide) init_fresh⟩,
    ⟨by decide, by decide, init_fresh,
      roundtrip.2.1 (Request.mk 5 (-3)) (List.replicate 12 0) Parser.init
        Message.init (by decide) (by decide) init_fresh⟩,
    ⟨by decide, by decide, init_fresh,
      roundtrip.2.2.1 (Response.mk 5 (-3) 7) (List.replicate 16 0) Parser.init
        Message.init (by decide) (by decide) init_fresh⟩⟩

/-- C2: encoder frame layout. For each registered type and every value `v`,
`sendToBuffer` into a buffer that can hold the frame returns `3 + sizeof(T) + 1`
(8, 12, 16) and leaves `0xA5`, the registered ID and `sizeof(T)` in the first
three bytes, then the fields of `v` in declaration order, each as 4
little-endian bytes, then the checksum of all preceding bytes folded from 0;
the rest of the buffer is untouched. `Heartbeat{count=1}` encodes to
`A5 00 04 01 00 00 00 18`. -/
theorem sendToBuffer_layout :
    (∀ (v : Heartbeat) (buffer : List Nat), 8 ≤ buffer.length →
      ∃ out, sendToBuffer v buffer = some (8, out) ∧ out.length = buffer.length
        ∧ out.take 3 = [0xA5, 0, 4]
        ∧ (out.drop 3).take 4 = le32 v.count
        ∧ out.getD 7 0 = (out.take 7).foldl update_crc 0
        ∧ out.drop 8 = buffer.drop 8)
    ∧ (∀ (v : Request) (buffer : List Nat), 12 ≤ buffer.length →
      ∃ out, sendToBuffer v buffer = some (12, out) ∧ out.length = buffer.length
        ∧ out.take 3 = [0xA5, 1, 8]
        ∧ (out.drop 3).take 8 = le32 (int32Bits v.a) ++ le32 (int32Bits v.b)
        ∧ out.getD 11 0 = (out.take 11).foldl update_crc 0
        ∧ out.drop 12 = buffer.drop 12)
    ∧ (∀ (v : Response) (buffer : List Nat), 16 ≤ buffer.length →
      ∃ out, sendToBuffer v buffer = some (16, out) ∧ out.length = buffer.length
        ∧ out.take 3 = [0xA5, 2, 12]
        ∧ (out.drop 3).take 12
            = le32 (int32Bits v.a) ++ le32 (int32Bits v.b) ++ le32 (int32Bits v.c)
        ∧ out.getD 15 0 = (out.take 15).foldl update_crc 0
        ∧ out.drop 16 = buffer.drop 16)
    ∧ sendToBuffer (Heartbeat.mk 1) (List.replicate 8 0)
        = some (8, [0xA5, 0x00, 0x04, 0x01, 0x00, 0x00, 0x00, 0x18]) := by
  refine ⟨?_, ?_, ?_, by decide⟩
  · intro v buffer h
    obtain ⟨out, h1, h2, h3, h4, h5, h6, _⟩ := sendToBuffer_layout_of v buffer rfl h
    exact ⟨out, h1, h2, h3, h4, h5, h6⟩
  · intro v buffer h
    obtain ⟨out, h1, h2, h3, h4, h5, h6, _⟩ := sendToBuffer_layout_of v buffer rfl h
    exact ⟨out, h1, h2, h3, h4, h5, h6⟩
  · intro v buffer h
    obtain ⟨out, h1, h2, h3, h4, h5, h6, _⟩ := sendToBuffer_layout_of v buffer rfl h
    exact ⟨out, h1, h2, h3, h4, h5, h6⟩

/-- Witness of C2 at `Heartbeat{count=1}`, `Request{a=5, b=-3}` and
`Response{a=5, b=-3, c=7}`, each with a buffer of exactly the frame length. -/
theorem sendToBuffer_layout_witness :
    (8 ≤ (List.replicate 8 0).length
      ∧ ∃ out, sendToBuffer (Heartbeat.mk 1) (List.replicate 8 0) = some (8, out)
        ∧ out.length = (List.replicate 8 0).length
        ∧ out.take 3 = [0xA5, 0, 4]
        ∧ (out.drop 3).take 4 = le32 (Heartbeat.mk 1).count
        ∧ out.getD 7 0 = (out.take 7).foldl update_crc 0
        ∧ out.drop 8 = (List.replicate 8 0).drop 8)
    ∧ (12 ≤ (List.replicate 12 0).length
      ∧ ∃ out, sendToBuffer (Request.mk 5 (-3)) (List.replicate 12 0) = some (12, out)
        ∧ out.length = (List.replicate 12 0).length
        ∧ out.take 3 = [0xA5, 1, 8]
        ∧ (out.drop 3).take 8
            = le32 (int32Bits (Request.mk 5 (-3)).a) ++ le32 (int32Bits (Request.mk 5 (-3)).b)
        ∧ out.getD 11 0 = (out.take 11).foldl update_crc 0
        ∧ out.drop 12 = (List.replicate 12 0).drop 12)
    ∧ (16 ≤ (List.replicate 16 0).length
      ∧ ∃ out, sendToBuffer (Response.mk 5 (-3) 7) (List.replicate 16 0) = some (16, out)
        ∧ out.length = (List.replicate 16 0).length
        ∧ out.take 3 = [0xA5, 2, 12]
        ∧ (out.drop 3).take 12
            = le32 (int32Bits (Response.mk 5 (-3) 7).a)
              ++ le32 (int32Bits (Response.mk 5 (-3) 7).b)
              ++ le32 (int32Bits (Response.mk 5 (-3) 7).c)
        ∧ out.getD 15 0 = (out.take 15).foldl update_crc 0
        ∧ out.drop 16 = (List.replicate 16 0).drop 16) :=
  ⟨⟨by decide, sendToBuffer_layout.1 (Heartbeat.mk 1) (List.replicate 8 0) (by decide)⟩,
    ⟨by decide,
      sendToBuffer_layout.2.1 (Request.mk 5 (-3)) (List.replicate 12 0) (by decide)⟩,
    ⟨by decide,
      sendToBuffer_layout.2.2.1 (Response.mk 5 (-3) 7) (List.replicate 16 0) (by decide)⟩⟩

/-- C3: parser acceptance is exactly checksum validity. For every ID byte `i`,
every length `L ≤ 12` (0 included), every payload of exactly `L` bytes and every
byte `c`, feeding `0xA5, i, L, payload, c` to a freshly constructed parser
returns false on each of the first `3 + L` bytes, and returns true on `c` if and
only if `c` is the fold of `update_crc` from 0 over `0xA5, i, L, payload`; the
message delivered then has `start_byte = 0xA5`, `id = i`, `len = L`, the payload
in `payload.buffer[0..L-1]` and `crc = c`. -/
theorem parser_accepts_iff_checksum (i L : Nat) (payload : List Nat) (c : Nat) (p : Parser)
    (msg : Message) (hp : p.Fresh) (hlen : payload.length = L) (hL : L ≤ 12) :
    ∃ (r : Bool) (q : Parser) (m : Message),
      parseBytes ([0xA5, i, L] ++ payload ++ [c]) p msg
        = some (List.replicate (3 + L) false ++ [r], q, m)
      ∧ (r = true ↔ c = ([0xA5, i, L] ++ payload).foldl update_crc 0)
      ∧ (r = true → m.start_byte = 0xA5 ∧ m.id = i ∧ m.len = L
          ∧ m.buffer.take L = payload ∧ m.crc = c) := by
  obtain ⟨hs, _, hsb, hcrc, hblen⟩ := hp
  subst hlen
  have hmax : payload.length ≤ maxPayloadSize := by rw [maxPayloadSize_eq]; exact hL
  have hfr := parseBytes_frame i payload c p msg hs hmax
  have hc := afterBody_crc p i payload hcrc
  rw [hc] at hfr
  refine ⟨_, _, _, hfr, ?_, ?_⟩
  · simp [crcOf, START_BYTE]
  · intro hr
    have hcc : c = crcOf (START_BYTE :: i :: payload.length :: payload) := by simpa using hr
    rw [if_pos hcc]
    refine ⟨by simpa [afterBody] using hsb, by simp [afterBody], by simp [afterBody], ?_, ?_⟩
    · simp only [afterBody]
      rw [storeBytes_zero _ _ (by rw [hblen]; exact hmax)]
      simp
    · rw [hc]; exact hcc.symm

/-- Witness of C3: the frame of `Heartbeat{count=1}`, on the initial parser. -/
theorem parser_accepts_iff_checksum_witness :
    Parser.init.Fresh ∧ [1, 0, 0, 0].length = 4 ∧ 4 ≤ 12
    ∧ ∃ (r : Bool) (q : Parser) (m : Message),
      parseBytes ([0xA5, 0, 4] ++ [1, 0, 0, 0] ++ [0x18]) Parser.init Message.init
        = some (List.replicate (3 + 4) false ++ [r], q, m)
      ∧ (r = true ↔ 0x18 = ([0xA5, 0, 4] ++ [1, 0, 0, 0]).foldl update_crc 0)
      ∧ (r = true → m.start_byte = 0xA5 ∧ m.id = 0 ∧ m.len = 4
          ∧ m.buffer.take 4 = [1, 0, 0, 0] ∧ m.crc = 0x18) :=
  ⟨init_fresh, rfl, by decide,
    parser_accepts_iff_checksum 0 4 [1, 0, 0, 0] 0x18 Parser.init Message.init
      init_fresh rfl (by decide)⟩

/-- C4: `update_crc` is CRC-8 with polynomial `0x07`, no reflection. For all
`a`, `b` the result is a byte, bit `i` of which is the coefficient of `x^i` in
the remainder of `(a XOR b)(x) * x^8` divided by `x^8 + x^2 + x + 1` over GF(2);
and it equals the 8-iteration shift-and-conditionally-XOR-`0x07` loop of the
specification, truncated to 8 bits. -/
theorem update_crc_is_crc8 (a b : Nat) :
    update_crc a b < 256
    ∧ (∀ i : Nat, ((bytePoly (a ^^^ b) * Polynomial.X ^ 8) %ₘ crcPoly).coeff i
        = if (update_crc a b).testBit i = true then 1 else 0)
    ∧ bytePoly (update_crc a b) = (bytePoly (a ^^^ b) * Polynomial.X ^ 8) %ₘ crcPoly
    ∧ update_crc a b = crc8Spec a b := by
  have h := bytePoly_update_crc a b
  rw [bytePoly_mod] at h
  refine ⟨update_crc_lt a b, ?_, h, update_crc_eq_crc8Spec a b⟩
  intro i
  rw [← h, bytePoly_coeff]
  by_cases hi : i < 8
  · simp [hi]
  · have : (update_crc a b).testBit i = false := by
      apply Nat.testBit_lt_two_pow
      calc update_crc a b < 256 := update_crc_lt a b
        _ = 2 ^ 8 := rfl
        _ ≤ 2 ^ i := Nat.pow_le_pow_right (by decide) (by omega)
    simp [hi, this]

/-- C6: resynchronization. In phase IDLE a byte other than `0xA5` makes
`parseByte` return false and changes neither the parser nor the caller's
message. Hence feeding noise without `0xA5` followed by any bytes `f` (an
encoded frame in particular) to a parser in phase IDLE (a fresh one in
particular) gives, on the bytes of `f`, the same results, the same final
message and the same final parser as feeding `f` alone. -/
theorem resynchronization :
    (∀ (p : Parser) (msg : Message) (b : Nat), p.parse_state = .IDLE → b ≠ 0xA5 →
      parseByte b p msg = some (false, p, msg))
    ∧ (∀ (noise f : List Nat) (p : Parser) (msg : Message),
        p.parse_state = .IDLE → (∀ b ∈ noise, b ≠ 0xA5) →
        parseBytes (noise ++ f) p msg
          = (parseBytes f p msg).map
              (fun r => (List.replicate noise.length false ++ r.1, r.2.1, r.2.2))) := by
  refine ⟨fun p msg b hs hb => parseByte_idle_ne b p msg hs hb, ?_⟩
  intro noise f p msg hs hn
  rw [parseBytes_append, parseBytes_noise noise p msg hs hn]
  simp

/-- Witness of C6: the byte `5A` on the initial parser, and the noise
`00 FF 5A` before the frame of `Heartbeat{count=1}`. -/
theorem resynchronization_witness :
    (Parser.init.parse_state = .IDLE ∧ 0x5A ≠ 0xA5
      ∧ parseByte 0x5A Parser.init Message.init
          = some (false, Parser.init, Message.init))
    ∧ Parser.init.parse_state = .IDLE ∧ (∀ b ∈ [0x00, 0xFF, 0x5A], b ≠ 0xA5)
    ∧ parseBytes ([0x00, 0xFF, 0x5A] ++ [0xA5, 0, 4, 1, 0, 0, 0, 0x18]) Parser.init
          Message.init
        = (parseBytes [0xA5, 0, 4, 1, 0, 0, 0, 0x18] Parser.init Message.init).map
            (fun r => (List.replicate [0x00, 0xFF, 0x5A].length false ++ r.1, r.2.1, r.2.2)) :=
  ⟨⟨rfl, by decide,
      resynchronization.1 Parser.init Message.init 0x5A rfl (by decide)⟩,
    rfl, by decide,
    resynchronization.2 [0x00, 0xFF, 0x5A] [0xA5, 0, 4, 1, 0, 0, 0, 0x18] Parser.init
      Message.init rfl (by decide)⟩

/-- Counterexample to C7 as stated: the frame `A5 FF 00 5F`, with the
unregistered ID `0xFF` and a right checksum, is decoded. -/
theorem unknown_id_counterexample :
    (∀ t : MessageID, t.toByte ≠ 0xFF)
    ∧ (parseBytes [0xA5, 0xFF, 0x00, 0x5F] Parser.init Message.init).map
          (fun r => (r.1, r.2.2.id))
        = some ([false, false, false, true], 0xFF) := by
  refine ⟨?_, by decide⟩
  intro t
  cases t <;> decide

/-- C7 (amended): the parser does not look the ID byte up in the registry. A
frame with the unregistered ID byte `0xFF`, a length `L ≤ 12`, `L` payload
bytes and a checksum byte `c`, fed to a fresh parser, gives false on the first
`3 + L` bytes and true on `c` exactly when `c` is the checksum of the preceding
bytes; the message delivered then has `id = 0xFF`, `len = L` and the payload as
fed. When `c` is wrong nothing is delivered: the caller's message is unchanged. -/
theorem unknown_id_accepted_iff_checksum (L : Nat) (payload : List Nat) (c : Nat) (p : Parser)
    (msg : Message) (hp : p.Fresh) (hlen : payload.length = L) (hL : L ≤ 12) :
    ∃ (r : Bool) (q : Parser) (m : Message),
      parseBytes ([0xA5, 0xFF, L] ++ payload ++ [c]) p msg
        = some (List.replicate (3 + L) false ++ [r], q, m)
      ∧ (r = true ↔ c = ([0xA5, 0xFF, L] ++ payload).foldl update_crc 0)
      ∧ (r = true → m.id = 0xFF ∧ m.len = L ∧ m.buffer.take L = payload ∧ m.crc = c)
      ∧ (r = false → m = msg)
      ∧ q.parse_state = .IDLE := by
  subst hlen
  obtain ⟨r, m, h1, h2, h3, h4⟩ := parseBytes_frame_fresh 0xFF payload c p msg hp
    (by rw [maxPayloadSize_eq]; exact hL)
  refine ⟨r, _, m, h1, h2, ?_, h4, rfl⟩
  intro hr
  rw [h3 hr]
  simp

/-- Witness of the amended C7: the frame `A5 FF 00 5F` on the initial parser. -/
theorem unknown_id_accepted_iff_checksum_witness :
    Parser.init.Fresh ∧ ([] : List Nat).length = 0 ∧ 0 ≤ 12
    ∧ ∃ (r : Bool) (q : Parser) (m : Message),
      parseBytes ([0xA5, 0xFF, 0] ++ [] ++ [0x5F]) Parser.init Message.init
        = some (List.replicate (3 + 0) false ++ [r], q, m)
      ∧ (r = true ↔ 0x5F = ([0xA5, 0xFF, 0] ++ []).foldl update_crc 0)
      ∧ (r = true → m.id = 0xFF ∧ m.len = 0 ∧ m.buffer.take 0 = [] ∧ m.crc = 0x5F)
      ∧ (r = false → m = Message.init)
      ∧ q.parse_state = .IDLE :=
  ⟨init_fresh, rfl, by decide,
    unknown_id_accepted_iff_checksum 0 [] 0x5F Parser.init Message.init
      init_fresh rfl (by decide)⟩

/-- Counterexample to C8 as stated: the frame `A5 02 04 01 00 00 00 4A` has the
ID of Response, length 4 instead of 12 and a right checksum; it is decoded, and
the message delivered has `id = 2` and `len = 4`. -/
theorem length_mismatch_counterexample :
    (SerialMessage.getID Response).toByte = 2 ∧ SerialMessage.size Response = 12
    ∧ (parseBytes [0xA5, 0x02, 0x04, 0x01, 0x00, 0x00, 0x00, 0x4A] Parser.init
          Message.init).map (fun r => (r.1, r.2.2.id, r.2.2.len))
        = some ([false, false, false, false, false, false, false, true], 2, 4) := by
  decide

/-- C8 (amended): the parser does not compare the length byte with the
registered size. A frame with the ID byte 2 of Response, a length byte `L ≤ 12`
other than 12, `L` payload bytes and a checksum byte `c`, fed to a fresh
parser, gives false on the first `3 + L` bytes and true on `c` exactly when `c`
is the checksum of the preceding bytes; the message delivered then has
`id = 2` and `len = L`, which is not the registered size of its id. When `c`
is wrong nothing is delivered. -/
theorem length_mismatch_accepted_iff_checksum (L : Nat) (payload : List Nat) (c : Nat)
    (p : Parser) (msg : Message) (hp : p.Fresh) (hlen : payload.length = L) (hL : L ≤ 12)
    (hne : L ≠ 12) :
    ∃ (r : Bool) (q : Parser) (m : Message),
      parseBytes ([0xA5, 2, L] ++ payload ++ [c]) p msg
        = some (List.replicate (3 + L) false ++ [r], q, m)
      ∧ (r = true ↔ c = ([0xA5, 2, L] ++ payload).foldl update_crc 0)
      ∧ (r = true → m.id = (SerialMessage.getID Response).toByte ∧ m.len = L
          ∧ m.len ≠ SerialMessage.size Response ∧ m.buffer.take L = payload)
      ∧ (r = false → m = msg)
      ∧ q.parse_state = .IDLE := by
  subst hlen
  obtain ⟨r, m, h1, h2, h3, h4⟩ := parseBytes_frame_fresh 2 payload c p msg hp
    (by rw [maxPayloadSize_eq]; exact hL)
  refine ⟨r, _, m, h1, h2, ?_, h4, rfl⟩
  intro hr
  rw [h3 hr]
  exact ⟨rfl, rfl, hne, by simp⟩

/-- Witness of the amended C8: the frame `A5 02 04 01 00 00 00 4A` on the
initial parser. -/
theorem length_mismatch_accepted_iff_checksum_witness :
    Parser.init.Fresh ∧ [1, 0, 0, 0].length = 4 ∧ 4 ≤ 12 ∧ 4 ≠ 12
    ∧ ∃ (r : Bool) (q : Parser) (m : Message),
      parseBytes ([0xA5, 2, 4] ++ [1, 0, 0, 0] ++ [0x4A]) Parser.init Message.init
        = some (List.replicate (3 + 4) false ++ [r], q, m)
      ∧ (r = true ↔ 0x4A = ([0xA5, 2, 4] ++ [1, 0, 0, 0]).foldl update_crc 0)
      ∧ (r = true → m.id = (SerialMessage.getID Response).toByte ∧ m.len = 4
          ∧ m.len ≠ SerialMessage.size Response ∧ m.buffer.take 4 = [1, 0, 0, 0])
      ∧ (r = false → m = Message.init)
      ∧ q.parse_state = .IDLE :=
  ⟨init_fresh, rfl, by decide, by decide,
    length_mismatch_accepted_iff_checksum 4 [1, 0, 0, 0] 0x4A Parser.init
      Message.init init_fresh rfl (by decide) (by decide)⟩

/-- C9 (the code at the failing input): the length byte 13 is not rejected, the
parser enters phase GOT_LENGTH with declared length 13; after 12 payload bytes
the next store is due at index 12, which is not below `maxPayloadSize`; the
13th payload byte is stored outside `payload.buffer`. -/
theorem payload_too_large_overflows :
    (parseBytes [0xA5, 0x00, 0x0D] Parser.init Message.init).map
        (fun r => (r.1, r.2.1.parse_state, r.2.1.msg_buffer.len))
      = some ([false, false, false], ParseState.GOT_LENGTH, 13)
    ∧ (parseBytes ([0xA5, 0x00, 0x0D] ++ List.replicate 12 0) Parser.init
          Message.init).map (fun r => storeIndex r.2.1)
        = some (some 12)
    ∧ ¬ (12 < maxPayloadSize)
    ∧ parseBytes ([0xA5, 0x00, 0x0D] ++ List.replicate 13 0) Parser.init
          Message.init = none := by
  decide

/-- Counterexample to C10 as stated: after the checksum byte of the frame of
`Heartbeat{count=1}` the parser is in phase IDLE with accumulator 0, but
`payload_bytes_received` is 4, not the 0 of a constructed parser. -/
theorem reset_counterexample :
    (parseBytes [0xA5, 0, 4, 1, 0, 0, 0] Parser.init Message.init).map
        (fun r => r.2.1.parse_state) = some ParseState.GOT_PAYLOAD
    ∧ (parseBytes [0xA5, 0, 4, 1, 0, 0, 0, 0x18] Parser.init Message.init).map
        (fun r => (r.2.1.parse_state, r.2.1.msg_buffer.crc, r.2.1.payload_bytes_received))
      = some (ParseState.IDLE, 0, 4)
    ∧ Parser.init.payload_bytes_received = 0 := by
  decide

/-- C10 (amended): a `parseByte` call that consumes a checksum byte (a call in
phase GOT_PAYLOAD), matching or not, sets the phase to IDLE and the accumulator
to 0 and leaves every other member of the parser unchanged; in particular
`payload_bytes_received` is not reset. After a whole frame with `L ≤ 12`
payload bytes fed to a fresh parser, the phase is IDLE, the accumulator is 0
and `payload_bytes_received` is `L`. -/
theorem reset_after_checksum :
    (∀ (p : Parser) (msg : Message) (b : Nat), p.parse_state = .GOT_PAYLOAD →
      ∃ (r : Bool) (m : Message),
        parseByte b p msg
          = some (r, { p with parse_state := .IDLE,
                              msg_buffer := { p.msg_buffer with crc := 0 } }, m)
        ∧ (r = true ↔ b = p.msg_buffer.crc))
    ∧ (∀ (i : Nat) (payload : List Nat) (c : Nat) (p : Parser) (msg : Message),
      p.Fresh → payload.length ≤ 12 →
      ∃ (rs : List Bool) (q : Parser) (m : Message),
        parseBytes ([0xA5, i, payload.length] ++ payload ++ [c]) p msg = some (rs, q, m)
        ∧ q.parse_state = .IDLE ∧ q.msg_buffer.crc = 0
        ∧ q.payload_bytes_received = payload.length) := by
  constructor
  · intro p msg b h
    by_cases hb : b = p.msg_buffer.crc
    · exact ⟨true, p.msg_buffer, by simp [parseByte, h, hb], by simp [hb]⟩
    · exact ⟨false, msg, by simp [parseByte, h, hb], by simp [hb]⟩
  · intro i payload c p msg hp hL
    obtain ⟨r, m, h1, _⟩ := parseBytes_frame_fresh i payload c p msg hp
      (by rw [maxPayloadSize_eq]; exact hL)
    refine ⟨_, _, m, h1, rfl, rfl, ?_⟩
    simp only [afterFrame, afterBody]
    split
    · rw [hp.2.1]; omega
    · rfl

/-- Witness of the amended C10: the parser awaiting the checksum `0x18` of the
frame of `Heartbeat{count=1}`, and that whole frame on the initial parser. -/
theorem reset_after_checksum_witness :
    (Parser.awaitingChecksum.parse_state = .GOT_PAYLOAD
      ∧ ∃ (r : Bool) (m : Message),
        parseByte 0x18 Parser.awaitingChecksum Message.init
          = some (r, { Parser.awaitingChecksum with
                        parse_state := .IDLE,
                        msg_buffer := { Parser.awaitingChecksum.msg_buffer with crc := 0 } }, m)
        ∧ (r = true ↔ 0x18 = Parser.awaitingChecksum.msg_buffer.crc))
    ∧ Parser.init.Fresh ∧ [1, 0, 0, 0].length ≤ 12
    ∧ ∃ (rs : List Bool) (q : Parser) (m : Message),
        parseBytes ([0xA5, 0, [1, 0, 0, 0].length] ++ [1, 0, 0, 0] ++ [0x18]) Parser.init
          Message.init = some (rs, q, m)
        ∧ q.parse_state = .IDLE ∧ q.msg_buffer.crc = 0
        ∧ q.payload_bytes_received = [1, 0, 0, 0].length :=
  ⟨⟨rfl, reset_after_checksum.1 Parser.awaitingChecksum Message.init 0x18 rfl⟩,
    init_fresh, by decide,
    reset_after_checksum.2 0 [1, 0, 0, 0] 0x18 Parser.init Message.init
      init_fresh (by decide)⟩

/-- C11: checksum mismatch discards the frame atomically. In phase GOT_PAYLOAD a
byte other than the running checksum accumulator makes `parseByte` return
false, leaves the caller's message unchanged and moves the parser to phase IDLE
with accumulator 0 (its other members unchanged); and in every phase a call
that returns false leaves the caller's message unchanged. -/
theorem checksum_mismatch_atomic :
    (∀ (p : Parser) (msg : Message) (b : Nat),
      p.parse_state = .GOT_PAYLOAD → b ≠ p.msg_buffer.crc →
      ∃ q, parseByte b p msg = some (false, q, msg)
        ∧ q.parse_state = .IDLE ∧ q.msg_buffer.crc = 0
        ∧ q = { p with parse_state := .IDLE, msg_buffer := { p.msg_buffer with crc := 0 } })
    ∧ (∀ (p q : Parser) (msg m : Message) (b : Nat) (r : Bool),
      parseByte b p msg = some (r, q, m) → r = false → m = msg) := by
  constructor
  · intro p msg b hs hb
    refine ⟨{ p with parse_state := .IDLE, msg_buffer := { p.msg_buffer with crc := 0 } },
      ?_, rfl, rfl, rfl⟩
    simp [parseByte, hs, hb]
  · intro p q msg m b r h hr
    exact parseByte_false_msg b p q msg m r h hr

/-- Witness of C11: the parser awaiting the checksum `0x18`, fed `0x19`. -/
theorem checksum_mismatch_atomic_witness :
    (Parser.awaitingChecksum.parse_state = .GOT_PAYLOAD
      ∧ 0x19 ≠ Parser.awaitingChecksum.msg_buffer.crc
      ∧ ∃ q, parseByte 0x19 Parser.awaitingChecksum Message.init = some (false, q, Message.init)
        ∧ q.parse_state = .IDLE ∧ q.msg_buffer.crc = 0
        ∧ q = { Parser.awaitingChecksum with
                  parse_state := .IDLE,
                  msg_buffer := { Parser.awaitingChecksum.msg_buffer with crc := 0 } })
    ∧ (parseByte 0x00 Parser.init Message.init = some (false, Parser.init, Message.init)
      ∧ false = false ∧ Message.init = Message.init) :=
  ⟨⟨rfl, by decide,
      checksum_mismatch_atomic.1 Parser.awaitingChecksum Message.init 0x19 rfl (by decide)⟩,
    by decide, rfl,
    checksum_mismatch_atomic.2 Parser.init Parser.init Message.init Message.init 0x00 false
      (by decide) rfl⟩

/-- C12: registry constants. `getID` maps Heartbeat, Request, Response to the
distinct IDs 0, 1, 2; their sizes are 4, 8, 12; `maxSizeOf` of a non-empty list
of sizes is a member of the list that is at least every member; hence
`Info::maxPayloadSize` is 12, every registered size is at most it, and it is
at most 255, so the truncation to `uint8_t` does not change it. -/
theorem registry_constants :
    ((SerialMessage.getID Heartbeat).toByte = 0 ∧ (SerialMessage.getID Request).toByte = 1
      ∧ (SerialMessage.getID Response).toByte = 2)
    ∧ (∀ s t : MessageID, s.toByte = t.toByte → s = t)
    ∧ (SerialMessage.size Heartbeat = 4 ∧ SerialMessage.size Request = 8
      ∧ SerialMessage.size Response = 12)
    ∧ (∀ (s : Nat) (ss : List Nat),
        maxSizeOf s ss ∈ s :: ss ∧ ∀ x ∈ s :: ss, x ≤ maxSizeOf s ss)
    ∧ maxSizeOf (SerialMessage.size Heartbeat)
        [SerialMessage.size Request, SerialMessage.size Response] = 12
    ∧ maxPayloadSize = 12
    ∧ (SerialMessage.size Heartbeat ≤ maxPayloadSize
      ∧ SerialMessage.size Request ≤ maxPayloadSize
      ∧ SerialMessage.size Response ≤ maxPayloadSize)
    ∧ maxPayloadSize ≤ 255 := by
  refine ⟨⟨rfl, rfl, rfl⟩, ?_, ⟨rfl, rfl, rfl⟩, ?_, by decide, maxPayloadSize_eq,
    ?_, ?_⟩
  · intro s t h
    cases s <;> cases t <;> first | rfl | (exact absurd h (by decide))
  · intro s ss
    exact ⟨maxSizeOf_mem s ss, maxSizeOf_ge s ss⟩
  · rw [maxPayloadSize_eq]
    exact ⟨by decide, by decide, by decide⟩
  · rw [maxPayloadSize_eq]
    decide

/-- Witness of C12 at the sizes of the registered types. -/
theorem registry_constants_witness :
    maxSizeOf 4 [8, 12] ∈ 4 :: [8, 12] ∧ ∀ x ∈ 4 :: [8, 12], x ≤ maxSizeOf 4 [8, 12] :=
  registry_constants.2.2.2.1 4 [8, 12]

/-- Counterexample to C13 as stated: the message decoded from the frame of
`Heartbeat{count=4294967295}` has the ID of Heartbeat, and `getRequest` on it
returns the record `Request{a=-1, b=0}`: the payload bytes read as a Request. -/
theorem wrong_variant_counterexample :
    getBytes (Heartbeat.mk 4294967295) = some [0xA5, 0x00, 0x04, 0xFF, 0xFF, 0xFF, 0xFF, 0xD0]
    ∧ (parseBytes [0xA5, 0x00, 0x04, 0xFF, 0xFF, 0xFF, 0xFF, 0xD0] Parser.init
          Message.init).map (fun r => (r.1.getLast?, r.2.2.id, r.2.2.getRequest))
        = some (some true, (SerialMessage.getID Heartbeat).toByte, Request.mk (-1) 0) := by
  decide

/-- C13 (amended): the typed accessors are unchecked views of the payload bytes.
None of `getHeartbeat`, `getRequest`, `getResponse` depends on the `id` of the
message; on the message decoded from the frame of a Heartbeat value `v`,
`getRequest` and `getResponse` return records: `a` is the count of `v` read as
an `int32_t`, `b` and `c` are whatever bytes 4..7 and 8..11 of the parser's
payload buffer held before. -/
theorem accessors_unchecked :
    (∀ (m : Message) (i : Nat),
      ({ m with id := i } : Message).getHeartbeat = m.getHeartbeat
      ∧ ({ m with id := i } : Message).getRequest = m.getRequest
      ∧ ({ m with id := i } : Message).getResponse = m.getResponse)
    ∧ (∀ (v : Heartbeat) (buffer : List Nat) (p : Parser) (msg : Message),
      isUInt32 v.count → 8 ≤ buffer.length → p.Fresh →
      ∃ out q m, sendToBuffer v buffer = some (8, out)
        ∧ parseBytes (out.take 8) p msg = some (List.replicate 7 false ++ [true], q, m)
        ∧ m.id = (SerialMessage.getID Heartbeat).toByte
        ∧ m.getRequest
            = { a := toInt32 v.count, b := toInt32 (readLe32 p.msg_buffer.buffer 4) }
        ∧ m.getResponse
            = { a := toInt32 v.count, b := toInt32 (readLe32 p.msg_buffer.buffer 4),
                c := toInt32 (readLe32 p.msg_buffer.buffer 8) }) := by
  refine ⟨fun m i => ⟨rfl, rfl, rfl⟩, ?_⟩
  intro v buffer p msg hv hbuf hp
  obtain ⟨out, m, h1, h2, _, h4, _, h6, _⟩ :=
    roundtrip_of v buffer p msg rfl (by decide) hbuf hp
  refine ⟨out, _, m, h1, h2, h4, ?_, ?_⟩
  · have e0 := readLe32_le32 v.count (List.drop 4 p.msg_buffer.buffer) hv
    have e4 : readLe32 (le32 v.count ++ List.drop 4 p.msg_buffer.buffer) 4
        = readLe32 p.msg_buffer.buffer 4 :=
      (readLe32_skip _ _ _ _ _ 0).trans (readLe32_drop _ 4 0)
    have hb : m.buffer = le32 v.count ++ List.drop 4 p.msg_buffer.buffer := h6
    simp only [Message.getRequest, hb, e0, e4]
  · have e0 := readLe32_le32 v.count (List.drop 4 p.msg_buffer.buffer) hv
    have e4 : readLe32 (le32 v.count ++ List.drop 4 p.msg_buffer.buffer) 4
        = readLe32 p.msg_buffer.buffer 4 :=
      (readLe32_skip _ _ _ _ _ 0).trans (readLe32_drop _ 4 0)
    have e8 : readLe32 (le32 v.count ++ List.drop 4 p.msg_buffer.buffer) 8
        = readLe32 p.msg_buffer.buffer 8 :=
      (readLe32_skip _ _ _ _ _ 4).trans (readLe32_drop _ 4 4)
    have hb : m.buffer = le32 v.count ++ List.drop 4 p.msg_buffer.buffer := h6
    simp only [Message.getResponse, hb, e0, e4, e8]

/-- Witness of the amended C13 at `Heartbeat{count=1}` on the initial parser. -/
theorem accessors_unchecked_witness :
    isUInt32 (Heartbeat.mk 1).count ∧ 8 ≤ (List.replicate 8 0).length ∧ Parser.init.Fresh
    ∧ ∃ out q m, sendToBuffer (Heartbeat.mk 1) (List.replicate 8 0) = some (8, out)
        ∧ parseBytes (out.take 8) Parser.init Message.init
            = some (List.replicate 7 false ++ [true], q, m)
        ∧ m.id = (SerialMessage.getID Heartbeat).toByte
        ∧ m.getRequest
            = { a := toInt32 (Heartbeat.mk 1).count,
                b := toInt32 (readLe32 Parser.init.msg_buffer.buffer 4) }
        ∧ m.getResponse
            = { a := toInt32 (Heartbeat.mk 1).count,
                b := toInt32 (readLe32 Parser.init.msg_buffer.buffer 4),
                c := toInt32 (readLe32 Parser.init.msg_buffer.buffer 8) } :=
  ⟨by decide, by decide, init_fresh,
    accessors_unchecked.2 (Heartbeat.mk 1) (List.replicate 8 0) Parser.init Message.init
      (by decide) (by decide) init_fresh⟩

/-- C14: back-to-back frames. For every list of values `vs` of registered
types, feeding the concatenation of the frames written by the encoder for them
to a freshly constructed parser makes `parseByte` return true exactly on the
last byte of each frame and false on every other byte, and the message
delivered by the `k`-th of these calls has the id, length and payload bytes of
the `k`-th value; the parser ends at rest in phase IDLE. -/
theorem back_to_back_frames (vs : List AnyMessage) (frames : List (List Nat)) (p : Parser)
    (msg : Message) (hp : p.Fresh) (hf : vs.map AnyMessage.getBytes = frames.map some) :
    ∃ log q, parseLog frames.flatten p msg = some (log, q)
      ∧ log.map (fun e => e.1)
          = (vs.map (fun v => List.replicate (3 + v.size) false ++ [true])).flatten
      ∧ (parseBytes frames.flatten p msg).map (fun r => r.1) = some (log.map (fun e => e.1))
      ∧ (delivered log).length = vs.length
      ∧ List.Forall₂
          (fun v m => m.id = v.getID.toByte ∧ m.len = v.size
            ∧ m.buffer.take v.size = v.objectBytes)
          vs (delivered log)
      ∧ q.parse_state = .IDLE ∧ q.msg_buffer.crc = 0 := by
  have hfr := frames_of_getBytes vs frames hf
  subst hfr
  obtain ⟨log, q, h1, h2, h3, h4⟩ := parseLog_frames vs p msg (fresh_resting p hp)
  refine ⟨log, q, h1, h2, ?_, h3.length_eq.symm, h3, h4.1, h4.2.2.1⟩
  rw [parseBytes_of_parseLog _ p q msg log h1]
  rfl

/-- Witness of C14: the frames of `Heartbeat{count=1}` and `Request{a=5, b=-3}`
back to back on the initial parser. -/
theorem back_to_back_frames_witness :
    Parser.init.Fresh
    ∧ [AnyMessage.heartbeat (Heartbeat.mk 1), AnyMessage.request (Request.mk 5 (-3))].map
          AnyMessage.getBytes
        = [[0xA5, 0, 4, 1, 0, 0, 0, 0x18],
            [0xA5, 1, 8, 5, 0, 0, 0, 0xFD, 0xFF, 0xFF, 0xFF, 0x23]].map some
    ∧ ∃ log q,
      parseLog [[0xA5, 0, 4, 1, 0, 0, 0, 0x18],
          [0xA5, 1, 8, 5, 0, 0, 0, 0xFD, 0xFF, 0xFF, 0xFF, 0x23]].flatten Parser.init
          Message.init = some (log, q)
      ∧ log.map (fun e => e.1)
          = ([AnyMessage.heartbeat (Heartbeat.mk 1),
              AnyMessage.request (Request.mk 5 (-3))].map
                (fun v => List.replicate (3 + v.size) false ++ [true])).flatten
      ∧ (parseBytes [[0xA5, 0, 4, 1, 0, 0, 0, 0x18],
            [0xA5, 1, 8, 5, 0, 0, 0, 0xFD, 0xFF, 0xFF, 0xFF, 0x23]].flatten Parser.init
            Message.init).map (fun r => r.1) = some (log.map (fun e => e.1))
      ∧ (delivered log).length
          = [AnyMessage.heartbeat (Heartbeat.mk 1),
              AnyMessage.request (Request.mk 5 (-3))].length
      ∧ List.Forall₂
          (fun v m => m.id = v.getID.toByte ∧ m.len = v.size
            ∧ m.buffer.take v.size = v.objectBytes)
          [AnyMessage.heartbeat (Heartbeat.mk 1), AnyMessage.request (Request.mk 5 (-3))]
          (delivered log)
      ∧ q.parse_state = .IDLE ∧ q.msg_buffer.crc = 0 :=
  ⟨init_fresh, by decide,
    back_to_back_frames
      [AnyMessage.heartbeat (Heartbeat.mk 1), AnyMessage.request (Request.mk 5 (-3))]
      [[0xA5, 0, 4, 1, 0, 0, 0, 0x18], [0xA5, 1, 8, 5, 0, 0, 0, 0xFD, 0xFF, 0xFF, 0xFF, 0x23]]
      Parser.init Message.init init_fresh (by decide)⟩

/-- C15: single-byte corruption outside the framing bytes is always detected.
For every value `v` of a registered type, every index `j` of the ID byte, of a
payload byte or of the checksum byte of the frame written by `sendToBuffer(v)`
and every byte `b` other than the original at `j`, feeding the frame with the
byte at `j` replaced by `b` to a freshly constructed parser makes every
`parseByte` call return false; the caller's message is unchanged. -/
theorem single_byte_corruption_detected (v : AnyMessage) (buffer : List Nat) (p : Parser)
    (msg : Message) (j b : Nat) (hbuf : 3 + v.size + 1 ≤ buffer.length) (hp : p.Fresh)
    (hj : j = 1 ∨ (3 ≤ j ∧ j < 3 + v.size + 1)) (hb : b < 256)
    (hne : v.frame.getD j 0 ≠ b) :
    ∃ out q, v.sendToBuffer buffer = some (3 + v.size + 1, out)
      ∧ out.take (3 + v.size + 1) = v.frame
      ∧ parseBytes ((out.take (3 + v.size + 1)).set j b) p msg
          = some (List.replicate (3 + v.size + 1) false, q, msg) := by
  obtain ⟨hs, _, _, hcrc, _⟩ := hp
  have hsend := v.sendToBuffer_rawFrame buffer hbuf
  obtain ⟨_, htake⟩ := v.take_sendToBuffer buffer _ _ hbuf hsend
  have hlenps := v.objectBytes_length
  have hmax : v.objectBytes.length ≤ maxPayloadSize := by rw [hlenps]; exact v.size_le
  have hid : v.getID.toByte < 256 := lt_of_le_of_lt v.getID_le (by decide)
  have hjr : j = 1 ∨ (3 ≤ j ∧ j ≤ 3 + v.objectBytes.length) := by
    rw [hlenps]; omega
  obtain ⟨q, hq⟩ := rawFrame_replace_rejected v.getID.toByte v.objectBytes j b p msg hs hcrc
    hid v.objectBytes_lt hmax hb hjr hne
  rw [hlenps] at hq
  exact ⟨_, q, hsend, htake, by rw [htake]; exact hq⟩

/-- Witness of C15: the first payload byte of the frame of `Heartbeat{count=1}`
replaced by `0xA5`. -/
theorem single_byte_corruption_detected_witness :
    3 + (AnyMessage.heartbeat (Heartbeat.mk 1)).size + 1 ≤ (List.replicate 8 0).length
    ∧ Parser.init.Fresh
    ∧ (3 = 1 ∨ (3 ≤ 3 ∧ 3 < 3 + (AnyMessage.heartbeat (Heartbeat.mk 1)).size + 1))
    ∧ 0xA5 < 256
    ∧ (AnyMessage.heartbeat (Heartbeat.mk 1)).frame.getD 3 0 ≠ 0xA5
    ∧ ∃ out q,
      (AnyMessage.heartbeat (Heartbeat.mk 1)).sendToBuffer (List.replicate 8 0)
        = some (3 + (AnyMessage.heartbeat (Heartbeat.mk 1)).size + 1, out)
      ∧ out.take (3 + (AnyMessage.heartbeat (Heartbeat.mk 1)).size + 1)
          = (AnyMessage.heartbeat (Heartbeat.mk 1)).frame
      ∧ parseBytes
          ((out.take (3 + (AnyMessage.heartbeat (Heartbeat.mk 1)).size + 1)).set 3 0xA5)
          Parser.init Message.init
          = some (List.replicate (3 + (AnyMessage.heartbeat (Heartbeat.mk 1)).size + 1) false,
              q, Message.init) :=
  ⟨by decide, init_fresh, by decide, by decide, by decide,
    single_byte_corruption_detected (AnyMessage.heartbeat (Heartbeat.mk 1))
      (List.replicate 8 0) Parser.init Message.init 3 0xA5 (by decide) init_fresh (by decide)
      (by decide) (by decide)⟩

/-- C16: accumulator invariant. In every parser state reached from a freshly
constructed parser by any byte sequence, whenever the phase is IDLE the
checksum accumulator `msg_buffer.crc` is 0; hence accepting a start byte there
leaves the accumulator equal to `update_crc(0, 0xA5)`, although the IDLE case
never assigns 0. -/
theorem idle_accumulator_zero (bs : List Nat) (p q : Parser) (msg m : Message)
    (rs : List Bool) (hp : p.Fresh) (hrun : parseBytes bs p msg = some (rs, q, m))
    (hidle : q.parse_state = .IDLE) :
    q.msg_buffer.crc = 0
    ∧ ∃ q2, parseByte 0xA5 q m = some (false, q2, m)
        ∧ q2.parse_state = .GOT_START_BYTE
        ∧ q2.msg_buffer.crc = update_crc 0 0xA5 := by
  have hinv := parseBytes_inv bs p q msg m rs (fresh_inv p hp) hrun
  have hz := hinv.1 hidle
  refine ⟨hz, { q with msg_buffer := { q.msg_buffer with crc := update_crc 0 0xA5 },
                       parse_state := .GOT_START_BYTE }, ?_, rfl, rfl⟩
  simp [parseByte, hidle, START_BYTE, hz]

/-- Witness of C16: after the frame of `Heartbeat{count=1}` on the initial parser. -/
theorem idle_accumulator_zero_witness :
    Parser.init.Fresh
    ∧ parseBytes [0xA5, 0, 4, 1, 0, 0, 0, 0x18] Parser.init Message.init
        = some ([false, false, false, false, false, false, false, true],
            Parser.afterHeartbeat, Parser.awaitingChecksum.msg_buffer)
    ∧ Parser.afterHeartbeat.parse_state = .IDLE
    ∧ Parser.afterHeartbeat.msg_buffer.crc = 0
    ∧ ∃ q2, parseByte 0xA5 Parser.afterHeartbeat Parser.awaitingChecksum.msg_buffer
          = some (false, q2, Parser.awaitingChecksum.msg_buffer)
        ∧ q2.parse_state = .GOT_START_BYTE
        ∧ q2.msg_buffer.crc = update_crc 0 0xA5 :=
  ⟨init_fresh, by decide, rfl,
    idle_accumulator_zero [0xA5, 0, 4, 1, 0, 0, 0, 0x18] Parser.init Parser.afterHeartbeat
      Message.init Parser.awaitingChecksum.msg_buffer
      [false, false, false, false, false, false, false, true] init_fresh (by decide) rfl⟩

/-- C17: payload-count invariant. In every parser state in phase GOT_LENGTH
reached from a freshly constructed parser by any byte sequence, the declared
length is positive and `payload_bytes_received` is below it, so the next store
is at an index below the declared length, and below `maxPayloadSize` when the
declared length is at most 12. The next call then moves to GOT_PAYLOAD exactly
when the count reaches the declared length and stays in GOT_LENGTH exactly when
it is still below; and exactly the missing `len - payload_bytes_received`
payload bytes are consumed before the checksum is awaited. -/
theorem payload_count_invariant (bs : List Nat) (p q : Parser) (msg m : Message)
    (rs : List Bool) (hp : p.Fresh) (hrun : parseBytes bs p msg = some (rs, q, m))
    (hst : q.parse_state = .GOT_LENGTH) :
    0 < q.msg_buffer.len
    ∧ q.payload_bytes_received < q.msg_buffer.len
    ∧ storeIndex q = some q.payload_bytes_received
    ∧ (q.msg_buffer.len ≤ 12 → q.payload_bytes_received < maxPayloadSize)
    ∧ (∀ b : Nat, q.payload_bytes_received < maxPayloadSize →
        ∃ q2, parseByte b q m = some (false, q2, m)
          ∧ q2.payload_bytes_received = q.payload_bytes_received + 1
          ∧ q2.msg_buffer.len = q.msg_buffer.len
          ∧ (q2.parse_state = .GOT_PAYLOAD ↔ q.payload_bytes_received + 1 = q.msg_buffer.len)
          ∧ (q2.parse_state = .GOT_LENGTH ↔ q.payload_bytes_received + 1 < q.msg_buffer.len))
    ∧ (∀ ps : List Nat, q.msg_buffer.len ≤ 12 →
        q.payload_bytes_received + ps.length = q.msg_buffer.len →
        ∃ q2, parseBytes ps q m = some (List.replicate ps.length false, q2, m)
          ∧ q2.parse_state = .GOT_PAYLOAD
          ∧ q2.payload_bytes_received = q.msg_buffer.len)
    ∧ (∀ ps : List Nat, q.msg_buffer.len ≤ 12 →
        q.payload_bytes_received + ps.length < q.msg_buffer.len →
        ∃ q2, parseBytes ps q m = some (List.replicate ps.length false, q2, m)
          ∧ q2.parse_state = .GOT_LENGTH
          ∧ q2.payload_bytes_received = q.payload_bytes_received + ps.length) := by
  have hinv := parseBytes_inv bs p q msg m rs (fresh_inv p hp) hrun
  obtain ⟨hpos, hlt⟩ := hinv.2 hst
  refine ⟨hpos, hlt, by simp [storeIndex, hst], ?_, ?_, ?_, ?_⟩
  · intro h12
    rw [maxPayloadSize_eq]
    omega
  · intro b hk
    obtain ⟨st, k, mb⟩ := q
    simp only at hst hk hpos hlt
    subst hst
    have hstep := parseByte_got_length b k mb m hk
    refine ⟨_, hstep, rfl, rfl, ?_, ?_⟩
    · simp only
      by_cases hle : mb.len ≤ k + 1
      · simp only [hle, if_true, true_iff]; omega
      · simp only [hle, if_false]
        constructor
        · intro h; exact absurd h (by decide)
        · intro h; omega
    · simp only
      by_cases hle : mb.len ≤ k + 1
      · simp only [hle, if_true]
        constructor
        · intro h; exact absurd h (by decide)
        · intro h; omega
      · simp only [hle, if_false, true_iff]; omega
  · intro ps h12 hlen
    obtain ⟨q2, h1, h2, h3, _⟩ := parseBytes_payload_complete ps q m hst hlt hlen
      (by rw [maxPayloadSize_eq]; exact h12)
    exact ⟨q2, h1, h2, h3⟩
  · intro ps h12 hlen
    obtain ⟨st, k, mb⟩ := q
    obtain ⟨sb, i, len, buffer, crc⟩ := mb
    simp only at hst hlen h12
    subst hst
    have := parseBytes_payload_partial ps k buffer crc sb i len m hlen
      (by rw [maxPayloadSize_eq]; omega)
    exact ⟨_, this, rfl, rfl⟩

/-- Witness of C17: after `A5 00 04 01 00` on the initial parser. -/
theorem payload_count_invariant_witness :
    Parser.init.Fresh
    ∧ parseBytes [0xA5, 0, 4, 1, 0] Parser.init Message.init
        = some ([false, false, false, false, false], Parser.midPayload, Message.init)
    ∧ Parser.midPayload.parse_state = .GOT_LENGTH
    ∧ 0 < Parser.midPayload.msg_buffer.len
    ∧ Parser.midPayload.payload_bytes_received < Parser.midPayload.msg_buffer.len
    ∧ storeIndex Parser.midPayload = some Parser.midPayload.payload_bytes_received
    ∧ (Parser.midPayload.msg_buffer.len ≤ 12
        → Parser.midPayload.payload_bytes_received < maxPayloadSize) :=
  ⟨init_fresh, by decide, rfl,
    (payload_count_invariant [0xA5, 0, 4, 1, 0] Parser.init Parser.midPayload Message.init
      Message.init [false, false, false, false, false] init_fresh (by decide) rfl).1,
    (payload_count_invariant [0xA5, 0, 4, 1, 0] Parser.init Parser.midPayload Message.init
      Message.init [false, false, false, false, false] init_fresh (by decide) rfl).2.1,
    (payload_count_invariant [0xA5, 0, 4, 1, 0] Parser.init Parser.midPayload Message.init
      Message.init [false, false, false, false, false] init_fresh (by decide) rfl).2.2.1,
    (payload_count_invariant [0xA5, 0, 4, 1, 0] Parser.init Parser.midPayload Message.init
      Message.init [false, false, false, false, false] init_fresh (by decide) rfl).2.2.2.1⟩

/-- C18: `update_crc` depends only on the XOR of its arguments and is a
bijection on bytes in each argument. For all `a`, `b`:
`update_crc(a, b) = update_crc(a XOR b, 0)`; for bytes, `b ↦ update_crc(a, b)`
is injective and reaches every byte (a permutation of the 256 byte values),
`a ↦ update_crc(a, b)` is injective and reaches every byte;
`update_crc(a XOR c, b XOR d) = update_crc(a, b) XOR update_crc(c, d)` and
`update_crc(0, 0) = 0`. -/
theorem update_crc_xor_structure :
    (∀ a b : Nat, update_crc a b = update_crc (a ^^^ b) 0)
    ∧ (∀ a b : Nat, update_crc a b < 256)
    ∧ (∀ a b b2 : Nat, a < 256 → b < 256 → b2 < 256 →
        update_crc a b = update_crc a b2 → b = b2)
    ∧ (∀ a y : Nat, a < 256 → y < 256 → ∃ b < 256, update_crc a b = y)
    ∧ (∀ a a2 b : Nat, a < 256 → a2 < 256 → b < 256 →
        update_crc a b = update_crc a2 b → a = a2)
    ∧ (∀ b y : Nat, b < 256 → y < 256 → ∃ a < 256, update_crc a b = y)
    ∧ (∀ a b c d : Nat, a < 256 → b < 256 → c < 256 → d < 256 →
        update_crc (a ^^^ c) (b ^^^ d) = update_crc a b ^^^ update_crc c d)
    ∧ update_crc 0 0 = 0 := by
  refine ⟨?_, update_crc_lt, ?_, ?_, ?_, ?_, ?_, by decide⟩
  · intro a b
    unfold update_crc
    rw [Nat.xor_zero]
  · intro a b b2 ha hb hb2 h
    exact update_crc_inj_right a b b2 ha hb hb2 h
  · intro a y ha hy
    exact update_crc_surj a y ha hy
  · intro a a2 b ha ha2 hb h
    exact update_crc_inj_left a a2 b ha ha2 hb h
  · intro b y hb hy
    obtain ⟨a, ha, h⟩ := update_crc_surj b y hb hy
    refine ⟨a, ha, ?_⟩
    unfold update_crc at h ⊢
    rw [Nat.xor_comm]
    exact h
  · intro a b c d ha hb hc hd
    exact update_crc_xor a b c d ha hb hc hd

/-- Witness of C18 at the bytes `0xA5`, `0x01`, `0x3C`, `0xF0`. -/
theorem update_crc_xor_structure_witness :
    update_crc 0xA5 0x01 = update_crc (0xA5 ^^^ 0x01) 0
    ∧ (∃ b < 256, update_crc 0xA5 b = 0x3C)
    ∧ (∃ a < 256, update_crc a 0x01 = 0x3C)
    ∧ update_crc (0xA5 ^^^ 0x3C) (0x01 ^^^ 0xF0)
        = update_crc 0xA5 0x01 ^^^ update_crc 0x3C 0xF0 :=
  ⟨update_crc_xor_structure.1 0xA5 0x01,
    update_crc_xor_structure.2.2.2.1 0xA5 0x3C (by decide) (by decide),
    update_crc_xor_structure.2.2.2.2.2.1 0x01 0x3C (by decide) (by decide),
    update_crc_xor_structure.2.2.2.2.2.2.1 0xA5 0x01 0x3C 0xF0 (by decide) (by decide)
      (by decide) (by decide)⟩

/-- C19: the encode buffer of the binding is always large enough. For every
value `v` of a registered type the frame length `3 + sizeof(T) + 1` returned by
`sendToBuffer` is at most `sizeof(protocol::Message) = maxPayloadSize + 4 = 16`,
with equality exactly for Response; so on the local buffer of `getBytes`
`sendToBuffer` makes no store out of bounds, and `getBytes` returns the frame.
`sendToBuffer` writes only the first `3 + sizeof(T) + 1` bytes of its buffer. -/
theorem encode_buffer_large_enough :
    (sizeofMessage = maxPayloadSize + 4 ∧ sizeofMessage = 16)
    ∧ (∀ v : AnyMessage, 3 + v.size + 1 ≤ sizeofMessage
        ∧ (3 + v.size + 1 = sizeofMessage ↔ v.getID = MessageID.RESPONSE))
    ∧ (∀ (v : AnyMessage) (local_buffer : List Nat), local_buffer.length = sizeofMessage →
        ∃ out, v.sendToBuffer local_buffer = some (3 + v.size + 1, out)
          ∧ out.length = local_buffer.length
          ∧ out.take (3 + v.size + 1) = v.frame
          ∧ out.drop (3 + v.size + 1) = local_buffer.drop (3 + v.size + 1))
    ∧ (∀ v : AnyMessage, v.getBytes = some v.frame ∧ v.frame.length = 3 + v.size + 1)
    ∧ (∀ (v : AnyMessage) (buffer : List Nat), 3 + v.size + 1 ≤ buffer.length →
        ∃ out, v.sendToBuffer buffer = some (3 + v.size + 1, out)
          ∧ out.length = buffer.length
          ∧ out.drop (3 + v.size + 1) = buffer.drop (3 + v.size + 1)) := by
  have hframe : ∀ v : AnyMessage, v.frame.length = 3 + v.size + 1 := by
    intro v
    rw [AnyMessage.frame, rawFrame_length, v.objectBytes_length]
  have hgen : ∀ (v : AnyMessage) (buffer : List Nat), 3 + v.size + 1 ≤ buffer.length →
      ∃ out, v.sendToBuffer buffer = some (3 + v.size + 1, out)
        ∧ out.length = buffer.length
        ∧ out.take (3 + v.size + 1) = v.frame
        ∧ out.drop (3 + v.size + 1) = buffer.drop (3 + v.size + 1) := by
    intro v buffer hbuf
    have hsend := v.sendToBuffer_rawFrame buffer hbuf
    have ht := (v.take_sendToBuffer buffer _ _ hbuf hsend).2
    refine ⟨_, hsend, ?_, ht, ?_⟩
    · have := hframe v
      rw [AnyMessage.frame] at this
      rw [List.length_append, this, List.length_drop]
      omega
    · have := hframe v
      rw [AnyMessage.frame] at this
      rw [← this, List.drop_left]
  have hle : ∀ v : AnyMessage, 3 + v.size + 1 ≤ sizeofMessage := by
    intro v
    have := v.size_le
    rw [maxPayloadSize_eq] at this
    rw [sizeofMessage_eq]
    omega
  refine ⟨⟨rfl, sizeofMessage_eq⟩, ?_, ?_, ?_, ?_⟩
  · intro v
    refine ⟨hle v, ?_⟩
    rw [sizeofMessage_eq]
    cases v <;> simp [AnyMessage.size, AnyMessage.getID, SerialMessage.size, SerialMessage.getID]
  · intro v local_buffer hl
    exact hgen v local_buffer (by rw [hl]; exact hle v)
  · intro v
    exact ⟨v.getBytes_eq, hframe v⟩
  · intro v buffer hbuf
    obtain ⟨out, h1, h2, _, h4⟩ := hgen v buffer hbuf
    exact ⟨out, h1, h2, h4⟩

/-- Witness of C19: `Response{a=5, b=-3, c=7}` on a local buffer of 16 bytes
`0xEE`. -/
theorem encode_buffer_large_enough_witness :
    (List.replicate 16 0xEE).length = sizeofMessage
    ∧ ∃ out,
      (AnyMessage.response (Response.mk 5 (-3) 7)).sendToBuffer (List.replicate 16 0xEE)
        = some (3 + (AnyMessage.response (Response.mk 5 (-3) 7)).size + 1, out)
      ∧ out.length = (List.replicate 16 0xEE).length
      ∧ out.take (3 + (AnyMessage.response (Response.mk 5 (-3) 7)).size + 1)
          = (AnyMessage.response (Response.mk 5 (-3) 7)).frame
      ∧ out.drop (3 + (AnyMessage.response (Response.mk 5 (-3) 7)).size + 1)
          = (List.replicate 16 0xEE).drop
              (3 + (AnyMessage.response (Response.mk 5 (-3) 7)).size + 1) :=
  ⟨by decide,
    encode_buffer_large_enough.2.2.1 (AnyMessage.response (Response.mk 5 (-3) 7))
      (List.replicate 16 0xEE) (by decide)⟩

/-- C20: noise that holds the start byte can swallow a valid frame. The bytes
`A5 00 0C` followed by the frame `A5 00 04 01 00 00 00 18` of
`Heartbeat{count=1}`, fed to the initial parser, make every call return false:
the parser takes the frame for payload of a 12-byte frame and is left in phase
GOT_LENGTH with 8 payload bytes received; the frame alone is decoded. -/
theorem start_byte_noise_swallows_frame :
    ∃ noise frame : List Nat,
      0xA5 ∈ noise
      ∧ getBytes (Heartbeat.mk 1) = some frame
      ∧ (parseBytes frame Parser.init Message.init).map (fun r => r.1)
          = some (List.replicate 7 false ++ [true])
      ∧ (parseBytes (noise ++ frame) Parser.init Message.init).map
            (fun r => (r.1, r.2.1.parse_state, r.2.1.payload_bytes_received, r.2.2))
          = some (List.replicate (noise.length + frame.length) false, ParseState.GOT_LENGTH, 8,
              Message.init) := by
  refine ⟨[0xA5, 0x00, 0x0C], [0xA5, 0x00, 0x04, 0x01, 0x00, 0x00, 0x00, 0x18], ?_, ?_, ?_, ?_⟩
  · decide
  · decide
  · decide
  · decide

end protocol
